import Mathlib

/-
Verification of the duplicate-DICOM detection pipeline
(CCIG-Champalimaud/hash-compare-dicoms).

The development shallowly embeds the pipeline's pure core:

* the content hasher (`hashBuffer`, src/lib/fileHelper.js:333),
* the format classifier (`extractRelevantData` / `isSpecialSOPClass` /
  `handleSpecialSOPClass`, src/lib/fileHelper.js:200-323),
* root-overlap elimination (`removeNestedFolders`, src/lib/fileHelper.js:23),
* the two tree walkers (`writeFilePathsToTemp`, src/lib/fileHelper.js:48,
  and `walk`, the LMDB-indexing scanner),
* the spool-driven processing loop and hash aggregation of the main driver
  (findDups entry point), and
* the bounded-pool admission loop (`scanAndIndexFiles` / `CONCURRENCY`).

File-system contents, directory-read outcomes and parsed DICOM datasets are
explicit data; machine integers are `Nat` with explicit reduction mod 2^32
where the hash needs it.
-/

/-! ## Byte-level SHA-256

Modelled from the spec: the ContentHasher contract (spec section 4.4,
"digest(bytes) -> fixed-length hex string", 256-bit class).  The source's
`hashBuffer` (src/lib/fileHelper.js:333-335) delegates to Node's `crypto`
module, which is outside this repository, so the hash itself is embedded as a
complete executable SHA-256 over byte lists, producing the lowercase-hex
digest string exactly as `digest('hex')` does. -/

/-- Reduction of a natural number to a 32-bit word. -/
def w32 (n : Nat) : Nat := n % 4294967296

/-- Right rotation of a 32-bit word by `n` bits. -/
def rotr32 (n x : Nat) : Nat := w32 ((x >>> n) ||| (x <<< (32 - n)))

/-- SHA-256 big sigma-0. -/
def bSig0 (x : Nat) : Nat := rotr32 2 x ^^^ rotr32 13 x ^^^ rotr32 22 x

/-- SHA-256 big sigma-1. -/
def bSig1 (x : Nat) : Nat := rotr32 6 x ^^^ rotr32 11 x ^^^ rotr32 25 x

/-- SHA-256 small sigma-0. -/
def sSig0 (x : Nat) : Nat := rotr32 7 x ^^^ rotr32 18 x ^^^ (x >>> 3)

/-- SHA-256 small sigma-1. -/
def sSig1 (x : Nat) : Nat := rotr32 17 x ^^^ rotr32 19 x ^^^ (x >>> 10)

/-- SHA-256 choice function (32-bit complement written as xor with 2^32-1). -/
def chFn (x y z : Nat) : Nat := (x &&& y) ^^^ ((x ^^^ 4294967295) &&& z)

/-- SHA-256 majority function. -/
def majFn (x y z : Nat) : Nat := (x &&& y) ^^^ (x &&& z) ^^^ (y &&& z)

/-- SHA-256 round constants. -/
def sha256K : List Nat :=
  [1116352408, 1899447441, 3049323471, 3921009573, 961987163, 1508970993,
   2453635748, 2870763221, 3624381080, 310598401, 607225278, 1426881987,
   1925078388, 2162078206, 2614888103, 3248222580, 3835390401, 4022224774,
   264347078, 604807628, 770255983, 1249150122, 1555081692, 1996064986,
   2554220882, 2821834349, 2952996808, 3210313671, 3336571891, 3584528711,
   113926993, 338241895, 666307205, 773529912, 1294757372, 1396182291,
   1695183700, 1986661051, 2177026350, 2456956037, 2730485921, 2820302411,
   3259730800, 3345764771, 3516065817, 3600352804, 4094571909, 275423344,
   430227734, 506948616, 659060556, 883997877, 958139571, 1322822218,
   1537002063, 1747873779, 1955562222, 2024104815, 2227730452, 2361852424,
   2428436474, 2756734187, 3204031479, 3329325298]

/-- SHA-256 initial hash state. -/
def sha256H0 : List Nat :=
  [1779033703, 3144134277, 1013904242, 2773480762,
   1359893119, 2600822924, 528734635, 1541459225]

/-- SHA-256 message padding: append 0x80, zeros to 56 mod 64, and the 64-bit
big-endian bit length. -/
def padMessage (msg : List Nat) : List Nat :=
  let len := msg.length
  let z := (119 - (len % 64)) % 64
  let bitLen := len * 8
  msg ++ [128] ++ List.replicate z 0 ++
    [(bitLen >>> 56) % 256, (bitLen >>> 48) % 256, (bitLen >>> 40) % 256, (bitLen >>> 32) % 256,
     (bitLen >>> 24) % 256, (bitLen >>> 16) % 256, (bitLen >>> 8) % 256, bitLen % 256]

/-- Splitting a byte list into successive 64-byte chunks. -/
def chunks64 (l : List Nat) : List (List Nat) :=
  match l with
  | [] => []
  | x :: xs => ((x :: xs).take 64) :: chunks64 ((x :: xs).drop 64)
termination_by l.length
decreasing_by simp [List.length_drop]; omega

/-- Grouping of bytes into big-endian 32-bit words. -/
def bytesToWords : List Nat → List Nat
  | a :: b :: c :: d :: rest => (((a * 256 + b) * 256 + c) * 256 + d) :: bytesToWords rest
  | _ => []

/-- Message-schedule extension over the reversed word list (head = newest
word), adding `k` further words. -/
def extSched : Nat → List Nat → List Nat
  | 0, revW => revW
  | k + 1, revW =>
      let nw := w32 (sSig1 (revW.getD 1 0) + revW.getD 6 0 + sSig0 (revW.getD 14 0) + revW.getD 15 0)
      extSched k (nw :: revW)

/-- Full 64-word message schedule of one 64-byte chunk. -/
def schedule (chunk : List Nat) : List Nat :=
  (extSched 48 (bytesToWords chunk).reverse).reverse

/-- One SHA-256 compression round on the state `[a,b,c,d,e,f,g,h]`, consuming
one (round-constant, schedule-word) pair. -/
def compressRound (st : List Nat) (kw : Nat × Nat) : List Nat :=
  match st with
  | [a, b, c, d, e, f, g, h] =>
      let t1 := w32 (h + bSig1 e + chFn e f g + kw.1 + kw.2)
      let t2 := w32 (bSig0 a + majFn a b c)
      [w32 (t1 + t2), a, b, c, w32 (d + t1), e, f, g]
  | other => other

/-- Processing of one 64-byte chunk into the running hash state. -/
def processChunk (hs : List Nat) (chunk : List Nat) : List Nat :=
  let st := (sha256K.zip (schedule chunk)).foldl compressRound hs
  List.zipWith (fun x y => w32 (x + y)) hs st

/-- SHA-256 of a byte list as eight 32-bit words. -/
def sha256Words (msg : List Nat) : List Nat :=
  (chunks64 (padMessage msg)).foldl processChunk sha256H0

/-- Lowercase hexadecimal digit. -/
def hexDigit (n : Nat) : Char := if n < 10 then Char.ofNat (48 + n) else Char.ofNat (87 + n)

/-- Eight-digit lowercase hex rendering of a 32-bit word. -/
def wordToHex (x : Nat) : List Char :=
  [hexDigit ((x >>> 28) % 16), hexDigit ((x >>> 24) % 16), hexDigit ((x >>> 20) % 16),
   hexDigit ((x >>> 16) % 16), hexDigit ((x >>> 12) % 16), hexDigit ((x >>> 8) % 16),
   hexDigit ((x >>> 4) % 16), hexDigit (x % 16)]

/-- SHA-256 digest of a byte list as a 64-character lowercase hex string. -/
def sha256Hex (msg : List Nat) : String := String.mk ((sha256Words msg).map wordToHex).flatten

/-- Embedding of `hashBuffer` (src/lib/fileHelper.js:333-335):
`crypto.createHash('sha256').update(buffer).digest('hex')`.  The function's
only input is the byte buffer. -/
def hashBuffer (buffer : List Nat) : String := sha256Hex buffer

/-! ## String helpers

JS string primitives used by the pipeline, embedded over `String.data` so
that all theorem-side evaluation is plain list recursion.  Paths and UIDs in
this codebase are ASCII, where JS `.length`, `.startsWith`, `.trim` and
`path` semantics coincide with the character-list versions below. -/

/-- Boolean list-prefix test. -/
def isPrefixList : List Char → List Char → Bool
  | [], _ => true
  | _, [] => false
  | a :: as, b :: bs => a = b && isPrefixList as bs

/-- Embedding of JS `String.prototype.startsWith`. -/
def strStartsWith (s p : String) : Bool := isPrefixList p.data s.data

/-- Embedding of JS `String.prototype.length` (code-unit count; equals the
character count on the ASCII strings this pipeline handles). -/
def strLen (s : String) : Nat := s.data.length

/-- ASCII whitespace as trimmed by JS `String.prototype.trim`. -/
def isWsp (c : Char) : Bool := c = ' ' || c = '\t' || c = '\n' || c = '\r'

/-- Embedding of JS `String.prototype.trim` (ASCII whitespace). -/
def strTrim (s : String) : String :=
  String.mk (((s.data.dropWhile isWsp).reverse.dropWhile isWsp).reverse)

/-- Lowercasing of one ASCII character, as JS `toLowerCase` acts on ASCII. -/
def lowerChar (c : Char) : Char :=
  if 'A' ≤ c ∧ c ≤ 'Z' then Char.ofNat (c.toNat + 32) else c

/-- Embedding of JS `String.prototype.toLowerCase` on ASCII strings. -/
def lowerStr (s : String) : String := String.mk (s.data.map lowerChar)

/-- POSIX path separator (`path.sep`). -/
def pathSep : String := "/"

/-- Embedding of `path.join(dir, name)` for a separator-free entry name. -/
def joinPath (dir nm : String) : String := dir ++ pathSep ++ nm

/-- Index-free extraction of the JS `path.extname` of a base name: the suffix
from the last `'.'` to the end, or empty when there is no dot or the only dot
is the leading character.  The walker applies it to `fullPath`; since entry
names never contain the separator, `extname(fullPath) = extname(baseName)`.
The first argument accumulates the characters already passed (in original
order); the second is the remaining reversed character list. -/
def extnameRev (acc : List Char) : List Char → List Char
  | [] => []
  | c :: rest =>
      if c = '.' then (if rest.isEmpty then [] else '.' :: acc)
      else extnameRev (c :: acc) rest

/-- Embedding of JS `path.extname` on a base name. -/
def extname (base : String) : String := String.mk (extnameRev [] base.data.reverse)

/-- Embedding of JS `path.basename` for paths built by `path.join` from
separator-free entry names: the portion after the last separator. -/
def basenameRev (acc : List Char) : List Char → List Char
  | [] => acc
  | c :: rest => if c = '/' then acc else basenameRev (c :: acc) rest

/-- Embedding of JS `path.basename`. -/
def basename (p : String) : String := String.mk (basenameRev [] p.data.reverse)

/-! ## Parsed DICOM datasets and the format classifier

The pipeline consumes the parsed-dataset abstraction produced by the external
`dicom-parser` collaborator (spec section 6): element lookup yielding a byte
range `(dataOffset, length)` against the original file bytes, plus a string
accessor.  Only the element tags the classifier actually reads are modelled,
one field per tag. -/

/-- Element of a parsed dataset: a byte range against the file buffer, as
`dicom-parser` exposes it (`dataOffset`, `length`). -/
structure DicomElement where
  dataOffset : Nat
  length : Nat
deriving DecidableEq, Repr

/-- Parsed dataset as `extractRelevantData` consumes it: the backing byte
array, the two string-valued tags it reads, and the payload elements looked
up by tag (`dataSet.elements.xXXXXXXXX`); `none` models an absent element. -/
structure DataSet where
  byteArray : List Nat
  sopClassUID : Option String
  modality : Option String
  pixelData : Option DicomElement
  encapsulatedDoc : Option DicomElement
  contentSeq : Option DicomElement
  roiSeq : Option DicomElement
  roiContourSeq : Option DicomElement
  roiObsSeq : Option DicomElement
  waveformData : Option DicomElement
deriving DecidableEq, Repr

/-- Byte region selected by `new Uint8Array(buffer, dataOffset, length)` for
an in-range element. -/
def sliceBytes (bytes : List Nat) (el : DicomElement) : List Nat :=
  (bytes.drop el.dataOffset).take el.length

/-- Embedding of `isSpecialSOPClass` (src/lib/fileHelper.js:232-240): every
entry, including the PDF and RT Structure Set identifiers, is tested with
`startsWith`. -/
def isSpecialSOPClass (sopClassUID : String) : Bool :=
  ["1.2.840.10008.5.1.4.1.1.104.1",
   "1.2.840.10008.5.1.4.1.1.88.",
   "1.2.840.10008.5.1.4.1.1.481.3",
   "1.2.840.10008.5.1.4.1.1.9.1."].any (fun p => strStartsWith sopClassUID p)

/-- RT Structure Set contribution of one target element
(src/lib/fileHelper.js:290-300): pushed only when present with positive
length. -/
def rtPart (bytes : List Nat) : Option DicomElement → List Nat
  | none => []
  | some el => if el.length > 0 then sliceBytes bytes el else []

/-- Concatenated RT Structure Set buffers in the source's fixed tag order:
StructureSetROISequence, ROIContourSequence, RTROIObservationsSequence. -/
def rtBuffers (ds : DataSet) : List Nat :=
  rtPart ds.byteArray ds.roiSeq ++ rtPart ds.byteArray ds.roiContourSeq ++
    rtPart ds.byteArray ds.roiObsSeq

/-- Embedding of `handleSpecialSOPClass` (src/lib/fileHelper.js:252-323):
exact match for encapsulated PDF, prefix match for SR, exact match for RT
Structure Set, prefix match for waveforms, `null` otherwise. -/
def handleSpecialSOPClass (ds : DataSet) (sopClassUID : String) : Option String :=
  if sopClassUID = "1.2.840.10008.5.1.4.1.1.104.1" then
    match ds.encapsulatedDoc with
    | none => none
    | some el =>
        if el.length = 0 then none else some (hashBuffer (sliceBytes ds.byteArray el))
  else if strStartsWith sopClassUID "1.2.840.10008.5.1.4.1.1.88." then
    match ds.contentSeq with
    | none => none
    | some el =>
        if el.length = 0 then none else some (hashBuffer (sliceBytes ds.byteArray el))
  else if sopClassUID = "1.2.840.10008.5.1.4.1.1.481.3" then
    if rtBuffers ds = [] then none else some (hashBuffer (rtBuffers ds))
  else if strStartsWith sopClassUID "1.2.840.10008.5.1.4.1.1.9.1." then
    match ds.waveformData with
    | none => none
    | some el =>
        if el.length = 0 then none else some (hashBuffer (sliceBytes ds.byteArray el))
  else none

/-- Embedding of `extractRelevantData` (src/lib/fileHelper.js:200-219): a
dataset not matching a special SOP class is hashed over its pixel-data
element; absence or zero length yields `null`.  The `modality` read mirrors
the source's unused local. -/
def extractRelevantData (ds : DataSet) : Option String :=
  let sopClassUID := ds.sopClassUID.getD ""
  let modality := ds.modality.getD ""
  if !isSpecialSOPClass sopClassUID then
    match ds.pixelData with
    | none => none
    | some el =>
        if el.length = 0 then none else some (hashBuffer (sliceBytes ds.byteArray el))
  else
    let _ := modality
    handleSpecialSOPClass ds sopClassUID

/-- Selected-payload bytes of a dataset: the byte region (or concatenation of
regions) that `extractRelevantData` feeds to `hashBuffer`, following the same
branching; `none` when the classifier yields no hashable payload. -/
def selectedPayload (ds : DataSet) : Option (List Nat) :=
  let sopClassUID := ds.sopClassUID.getD ""
  if !isSpecialSOPClass sopClassUID then
    match ds.pixelData with
    | none => none
    | some el => if el.length = 0 then none else some (sliceBytes ds.byteArray el)
  else if sopClassUID = "1.2.840.10008.5.1.4.1.1.104.1" then
    match ds.encapsulatedDoc with
    | none => none
    | some el => if el.length = 0 then none else some (sliceBytes ds.byteArray el)
  else if strStartsWith sopClassUID "1.2.840.10008.5.1.4.1.1.88." then
    match ds.contentSeq with
    | none => none
    | some el => if el.length = 0 then none else some (sliceBytes ds.byteArray el)
  else if sopClassUID = "1.2.840.10008.5.1.4.1.1.481.3" then
    if rtBuffers ds = [] then none else some (rtBuffers ds)
  else if strStartsWith sopClassUID "1.2.840.10008.5.1.4.1.1.9.1." then
    match ds.waveformData with
    | none => none
    | some el => if el.length = 0 then none else some (sliceBytes ds.byteArray el)
  else none

/-- Recognized file as the per-file worker sees it: the path it was given and
the dataset parsed from the file bytes.  The digest computation below is the
pure fragment of `processDicomFile` (src/lib/fileHelper.js:180-190) on a
successfully parsed file. -/
structure DicomFile where
  path : String
  dataSet : DataSet

/-- Digest computed for a recognized file: `extractRelevantData` applied to
its dataset.  The file path is available to the worker but unused. -/
def fileDigest (f : DicomFile) : Option String := extractRelevantData f.dataSet

/-! ## Root-overlap elimination -/

/-- Stable insertion step for the JS array sort with comparator
`(a, b) => a.length - b.length`: an element is placed before the first
strictly longer element, hence after every earlier element of equal or
smaller length. -/
def insertByLen (f : String) : List String → List String
  | [] => [f]
  | g :: rest => if strLen g < strLen f then g :: insertByLen f rest else f :: g :: rest

/-- Stable ascending-by-length sort, the behaviour of the source's
`sort((a, b) => a.length - b.length)` (JS sorts with comparators are
stable). -/
def sortByLen (l : List String) : List String := l.foldr insertByLen []

/-- Separator-bounded parent test from `removeNestedFolders`:
`folder.startsWith(parent + path.sep)`. -/
def isSubfolderOf (parent folder : String) : Bool := strStartsWith folder (parent ++ pathSep)

/-- Accumulating loop of `removeNestedFolders` (src/lib/fileHelper.js:27-32):
a folder is appended unless some already-kept folder is a separator-bounded
parent of it. -/
def keepOuterLoop : List String → List String → List String
  | result, [] => result
  | result, folder :: rest =>
      if result.any (fun parent => isSubfolderOf parent folder) then keepOuterLoop result rest
      else keepOuterLoop (result ++ [folder]) rest

/-- Embedding of `removeNestedFolders` (src/lib/fileHelper.js:23-35).  Input
paths are modelled as already-resolved absolute paths, on which the source's
initial `path.resolve` map is the identity. -/
def removeNestedFolders (folders : List String) : List String :=
  keepOuterLoop [] (sortByLen folders)

/-! ## File-system trees and the two walkers -/

/-- Directory-tree entry as the walkers observe it through `readdir` with
file types: a regular file, a readable directory with its entries, a
directory whose read fails with EACCES/EPERM, a directory whose read fails
with any other error, and an entry that is neither file nor directory
(symlink, socket), which both walkers ignore. -/
inductive FSEntry where
  | file : String → FSEntry
  | dir : String → List FSEntry → FSEntry
  | dirDenied : String → FSEntry
  | dirErrored : String → FSEntry
  | special : String → FSEntry

/-- Name of an entry (`entry.name`). -/
def FSEntry.name : FSEntry → String
  | .file nm => nm
  | .dir nm _ => nm
  | .dirDenied nm => nm
  | .dirErrored nm => nm
  | .special nm => nm

/-- Filtered-mode inclusion test of `writeFilePathsToTemp`
(src/lib/fileHelper.js:69-77): lowercased extension empty, `.dcm` or
`.dicom`, and base name not starting with a dot. -/
def keepFiltered (nm : String) : Bool :=
  (["", ".dcm", ".dicom"].contains (lowerStr (extname nm))) && !(strStartsWith nm ".")

/-- Embedding of `writeFilePathsToTemp` (src/lib/fileHelper.js:48-89) over
the entries of one directory: returns the spooled paths (in append order —
their number is exactly the `counter.count` increment) and the
warned-inaccessible directory paths, or `Except.error` when some directory
read fails with a non-permission error, which the source re-throws.  The
recursive call on a subdirectory inlines the callee's `readdir` try/catch. -/
def writeFilePathsToTemp (deepMode : Bool) (dirPath : String) :
    List FSEntry → Except Unit (List String × List String)
  | [] => .ok ([], [])
  | .dir nm sub :: rest => do
      let (ps, ws) ← writeFilePathsToTemp deepMode (joinPath dirPath nm) sub
      let (ps2, ws2) ← writeFilePathsToTemp deepMode dirPath rest
      .ok (ps ++ ps2, ws ++ ws2)
  | .dirDenied nm :: rest => do
      let (ps2, ws2) ← writeFilePathsToTemp deepMode dirPath rest
      .ok (ps2, joinPath dirPath nm :: ws2)
  | .dirErrored _ :: _ => .error ()
  | .file nm :: rest => do
      let (ps2, ws2) ← writeFilePathsToTemp deepMode dirPath rest
      if deepMode || keepFiltered nm then .ok (joinPath dirPath nm :: ps2, ws2)
      else .ok (ps2, ws2)
  | .special _ :: rest => writeFilePathsToTemp deepMode dirPath rest

/-- Embedding of the LMDB-indexing scanner's `walk` async generator: every
entry whose name starts with a dot is skipped before the type dispatch;
files are yielded; a directory whose read fails (any error) is recorded and
traversal continues with siblings.  Returns (yielded paths, recorded error
paths). -/
def walk (dirPath : String) : List FSEntry → List String × List String
  | [] => ([], [])
  | e :: rest =>
      if strStartsWith e.name "." then walk dirPath rest
      else
        match e with
        | .file nm =>
            let (ps, es) := walk dirPath rest
            (joinPath dirPath nm :: ps, es)
        | .dir nm sub =>
            let (ps1, es1) := walk (joinPath dirPath nm) sub
            let (ps2, es2) := walk dirPath rest
            (ps1 ++ ps2, es1 ++ es2)
        | .dirDenied nm =>
            let (ps2, es2) := walk dirPath rest
            (ps2, joinPath dirPath nm :: es2)
        | .dirErrored nm =>
            let (ps2, es2) := walk dirPath rest
            (ps2, joinPath dirPath nm :: es2)
        | .special _ => walk dirPath rest

/-- Tree with every dot-named entry removed, recursively. -/
def pruneDots : List FSEntry → List FSEntry
  | [] => []
  | e :: rest =>
      if strStartsWith e.name "." then pruneDots rest
      else
        match e with
        | .dir nm sub => .dir nm (pruneDots sub) :: pruneDots rest
        | other => other :: pruneDots rest

/-- Presence of a non-permission directory-read failure anywhere in the
tree. -/
def hasErrored : List FSEntry → Bool
  | [] => false
  | .dirErrored _ :: _ => true
  | .dir _ sub :: rest => hasErrored sub || hasErrored rest
  | _ :: rest => hasErrored rest

/-- Paths of the permission-denied directories in traversal order. -/
def deniedDirs (dirPath : String) : List FSEntry → List String
  | [] => []
  | .dir nm sub :: rest => deniedDirs (joinPath dirPath nm) sub ++ deniedDirs dirPath rest
  | .dirDenied nm :: rest => joinPath dirPath nm :: deniedDirs dirPath rest
  | _ :: rest => deniedDirs dirPath rest

/-- Tree with the permission-denied directories removed. -/
def pruneDenied : List FSEntry → List FSEntry
  | [] => []
  | .dir nm sub :: rest => .dir nm (pruneDenied sub) :: pruneDenied rest
  | .dirDenied _ :: rest => pruneDenied rest
  | e :: rest => e :: pruneDenied rest

/-- Discovery over the resolved root list as the findDups driver performs
it: for each root in order, `saveAllFilePaths` appends that root's spooled
paths to the one temp file.  `lookup` gives each root directory's entries. -/
def enumerateRoots (deepMode : Bool) (lookup : String → List FSEntry) :
    List String → Except Unit (List String)
  | [] => .ok []
  | r :: rest => do
      let (ps, _) ← writeFilePathsToTemp deepMode r (lookup r)
      let others ← enumerateRoots deepMode lookup rest
      .ok (ps ++ others)

/-! ## Spool processing, counters and hash aggregation -/

/-- Scan counters of the findDups driver: `count` is incremented once per
spooled file during discovery, `dicoms` once per successfully parsed file. -/
structure Counter where
  count : Nat
  dicoms : Nat
deriving DecidableEq, Repr

/-- Spool line together with the outcome the file system and parser will
give it: `parsed = none` models `readFile`/`parseDicom` throwing (the catch
in `processDicomFile` returns `null` without touching the counter). -/
structure SpoolEntry where
  path : String
  parsed : Option DataSet
deriving DecidableEq, Repr

/-- Embedding of `processDicomFile` (src/lib/fileHelper.js:180-190): on a
parse failure the counter is untouched and the result is `null`; on success
`counter.dicoms` is incremented and the classifier runs. -/
def processDicomFile (e : SpoolEntry) (c : Counter) : Option String × Counter :=
  match e.parsed with
  | none => (none, c)
  | some ds => (extractRelevantData ds, { c with dicoms := c.dicoms + 1 })

/-- Hash-or-null outcome of one spool entry (the first component of
`processDicomFile`, which does not depend on the counter). -/
def entryHash (e : SpoolEntry) : Option String :=
  match e.parsed with
  | none => none
  | some ds => extractRelevantData ds

/-- Embedding of the duplicate-map update in the driver callback:
`if (!hashes.has(hash)) hashes.set(hash, []); hashes.get(hash).push(filePath)`,
with the insertion-ordered `Map` as an association list. -/
def addHash (m : List (String × List String)) (h p : String) : List (String × List String) :=
  if m.any (fun kv => kv.1 = h) then
    m.map (fun kv => if kv.1 = h then (kv.1, kv.2 ++ [p]) else kv)
  else m ++ [(h, [p])]

/-- State accumulated by the processing phase. -/
structure RunState where
  counter : Counter
  hashes : List (String × List String)
deriving DecidableEq, Repr

/-- One iteration of `processFilePaths` (src/lib/fileHelper.js:136-144)
driving the findDups callback: blank lines are skipped (`if (line.trim())`);
otherwise `processDicomFile` runs and a non-null hash is recorded. -/
def stepRun (st : RunState) (e : SpoolEntry) : RunState :=
  if strTrim e.path = "" then st
  else
    match processDicomFile e st.counter with
    | (none, c) => { st with counter := c }
    | (some h, c) => { counter := c, hashes := addHash st.hashes h e.path }

/-- Whole processing phase over the spool: discovery already set
`counter.count` to the number of spooled lines; `dicoms` starts at 0 and the
map empty. -/
def runPipeline (spool : List SpoolEntry) : RunState :=
  spool.foldl stepRun { counter := { count := spool.length, dicoms := 0 }, hashes := [] }

/-- Duplicate groups: hash groups with at least two members (the driver's
`filter(([_, files]) => files.length > 1)`). -/
def duplicateGroups (st : RunState) : List (String × List String) :=
  st.hashes.filter (fun kv => 1 < kv.2.length)

/-- Number of spool entries whose read or parse fails. -/
def parseFailCount (spool : List SpoolEntry) : Nat :=
  (spool.filter (fun e => e.parsed = none)).length

/-- Number of spool entries processed to a null hash. -/
def nullHashCount (spool : List SpoolEntry) : Nat :=
  (spool.filter (fun e => entryHash e = none)).length

/-- Total occurrences of the path `p` across all hash groups. -/
def countInGroups (p : String) (m : List (String × List String)) : Nat :=
  (m.map (fun kv => kv.2.count p)).sum

/-- Occurrences of the path `p` in the spool. -/
def pathOccurrences (p : String) (spool : List SpoolEntry) : Nat :=
  (spool.filter (fun e => e.path = p)).length

/-- Occurrences of the path `p` in the spool with a null processing
outcome. -/
def nullOccurrences (p : String) (spool : List SpoolEntry) : Nat :=
  (spool.filter (fun e => e.path = p && entryHash e = none)).length

/-- Absent-or-empty test on an optional element, as each classifier branch
performs it (`!element || element.length === 0`). -/
def elemAbsent : Option DicomElement → Bool
  | none => true
  | some el => el.length == 0

/-- In-range test on an optional element: a present element's byte range
lies inside the buffer, as `dicom-parser` guarantees for elements of a
successfully parsed file. -/
def elemInRange (bytes : List Nat) : Option DicomElement → Bool
  | none => true
  | some el => el.dataOffset + el.length ≤ bytes.length

/-- In-range condition for the three RT Structure Set target elements. -/
def rtElemsInRange (ds : DataSet) : Bool :=
  elemInRange ds.byteArray ds.roiSeq && elemInRange ds.byteArray ds.roiContourSeq &&
    elemInRange ds.byteArray ds.roiObsSeq

/-- Designated-payload-missing predicate, read off the classifier's
branches: the payload element consulted for the dataset's kind is absent or
zero-length (for RT Structure Set, all three target elements are; for a
special-prefixed SOP class handled by no special branch there is no
designated element at all). -/
def designatedMissing (ds : DataSet) : Bool :=
  let uid := ds.sopClassUID.getD ""
  if !isSpecialSOPClass uid then elemAbsent ds.pixelData
  else if uid = "1.2.840.10008.5.1.4.1.1.104.1" then elemAbsent ds.encapsulatedDoc
  else if strStartsWith uid "1.2.840.10008.5.1.4.1.1.88." then elemAbsent ds.contentSeq
  else if uid = "1.2.840.10008.5.1.4.1.1.481.3" then
    elemAbsent ds.roiSeq && elemAbsent ds.roiContourSeq && elemAbsent ds.roiObsSeq
  else if strStartsWith uid "1.2.840.10008.5.1.4.1.1.9.1." then elemAbsent ds.waveformData
  else true

/-! ## Bounded-pool admission loop -/

/-- Embedding of `CONCURRENCY`: `Math.max(2, numCPUs - 1)`. -/
def CONCURRENCY (numCPUs : Nat) : Nat := max 2 (numCPUs - 1)

/-- State of the admission loop in `scanAndIndexFiles`: task ids are
admission indices; `pool` is the array of tracked promises, `running` the
admitted-but-unsettled tasks, `settled` the settled ids. -/
structure PoolState where
  nextId : Nat
  pool : List Nat
  running : List Nat
  settled : List Nat
deriving DecidableEq, Repr

/-- Small-step semantics of the admission loop interleaved with task
completion: `spawn` is the loop body pushing the next task when the pool is
below the ceiling; `settle` is an in-flight task finishing at any moment;
`raceShift` is `await Promise.race(pool); pool.shift()`, enabled as soon as
some tracked promise has settled (`Promise.race` resolves immediately on an
already-settled member) and removing the oldest tracked promise whether or
not it has settled. -/
inductive PoolStep (C : Nat) : PoolState → PoolState → Prop
  | spawn (s : PoolState) : s.pool.length < C →
      PoolStep C s ⟨s.nextId + 1, s.pool ++ [s.nextId], s.running ++ [s.nextId], s.settled⟩
  | settle (s : PoolState) (i : Nat) : i ∈ s.running →
      PoolStep C s ⟨s.nextId, s.pool, s.running.erase i, i :: s.settled⟩
  | raceShift (s : PoolState) : C ≤ s.pool.length → (∃ i ∈ s.pool, i ∈ s.settled) →
      PoolStep C s ⟨s.nextId, s.pool.tail, s.running, s.settled⟩

/-- Reachability of a pool state from the initial empty state. -/
inductive PoolReach (C : Nat) : PoolState → Prop
  | init : PoolReach C ⟨0, [], [], []⟩
  | step {s t : PoolState} : PoolReach C s → PoolStep C s t → PoolReach C t

/-! ## Concrete datasets and trees used by witnesses and counterexamples -/

/-- Image-like dataset: no SOP class, three pixel bytes. -/
def dsImgA : DataSet :=
  ⟨[7, 8, 9], none, some "CT", some ⟨0, 3⟩, none, none, none, none, none, none⟩

/-- Image-like dataset with the same pixel bytes as `dsImgA` but different
buffer, SOP class string and modality. -/
def dsImgB : DataSet :=
  ⟨[7, 8, 9, 4], some "", some "MR", some ⟨0, 3⟩, none, none, none, none, none, none⟩

/-- Image-like dataset whose pixel-data element is present but zero-length. -/
def dsZeroPixel : DataSet :=
  ⟨[7, 8, 9], none, some "CT", some ⟨0, 0⟩, none, none, none, none, none, none⟩

/-- Image-like dataset with no pixel-data element at all. -/
def dsNoPixel : DataSet :=
  ⟨[], none, none, none, none, none, none, none, none, none⟩

/-- Dataset exercising the gap between the classifier's prefix matching and
the special handler's exact matching: a SOP class properly extending the
encapsulated-PDF identifier, with pixel data present and non-empty. -/
def dsGap : DataSet :=
  ⟨[1, 2, 3], some "1.2.840.10008.5.1.4.1.1.104.19", none, some ⟨0, 3⟩, none, none, none, none,
    none, none⟩

/-- RT Structure Set dataset with the ROI-contour sequence missing and the
other two target elements present and non-empty. -/
def dsRT : DataSet :=
  ⟨[5, 6, 7], some "1.2.840.10008.5.1.4.1.1.481.3", none, none, none, none, some ⟨0, 2⟩, none,
    some ⟨2, 1⟩, none⟩

/-- Special-rule match exactly as claim C4 words it: exact encapsulated-PDF
identifier, SR prefix, exact RT Structure Set identifier, waveform prefix. -/
def claimSpecialRule (uid : String) : Bool :=
  uid = "1.2.840.10008.5.1.4.1.1.104.1" ||
    strStartsWith uid "1.2.840.10008.5.1.4.1.1.88." ||
    uid = "1.2.840.10008.5.1.4.1.1.481.3" ||
    strStartsWith uid "1.2.840.10008.5.1.4.1.1.9.1."

/-! ## Theorems -/

/-- Bridge lemma: the classifier's digest is exactly `hashBuffer` mapped over
the selected payload. -/
theorem extractRelevantData_eq_map_hash (ds : DataSet) :
    extractRelevantData ds = (selectedPayload ds).map hashBuffer := by
  unfold extractRelevantData selectedPayload handleSpecialSOPClass
  by_cases h1 : isSpecialSOPClass (ds.sopClassUID.getD "") = true
  · have e1 : isSpecialSOPClass "1.2.840.10008.5.1.4.1.1.104.1" = true := by decide
    by_cases h2 : ds.sopClassUID.getD "" = "1.2.840.10008.5.1.4.1.1.104.1"
    · cases hed : ds.encapsulatedDoc with
      | none => simp [h1, h2, hed, e1]
      | some el => by_cases h3 : el.length = 0 <;> simp [h1, h2, hed, h3, e1]
    · by_cases h3 : strStartsWith (ds.sopClassUID.getD "") "1.2.840.10008.5.1.4.1.1.88." = true
      · cases hcs : ds.contentSeq with
        | none => simp [h1, h2, h3, hcs]
        | some el => by_cases h4 : el.length = 0 <;> simp [h1, h2, h3, hcs, h4]
      · have e2 : isSpecialSOPClass "1.2.840.10008.5.1.4.1.1.481.3" = true := by decide
        have e3 : strStartsWith "1.2.840.10008.5.1.4.1.1.481.3" "1.2.840.10008.5.1.4.1.1.88." = false := by decide
        by_cases h4 : ds.sopClassUID.getD "" = "1.2.840.10008.5.1.4.1.1.481.3"
        · by_cases h5 : rtBuffers ds = [] <;> simp [h1, h2, h3, h4, h5, e2, e3]
        · by_cases h5 : strStartsWith (ds.sopClassUID.getD "") "1.2.840.10008.5.1.4.1.1.9.1." = true
          · cases hwd : ds.waveformData with
            | none => simp [h1, h2, h3, h4, h5, hwd]
            | some el => by_cases h6 : el.length = 0 <;> simp [h1, h2, h3, h4, h5, hwd, h6]
          · simp [h1, h2, h3, h4, h5]
  · cases hpd : ds.pixelData with
    | none => simp [h1, hpd]
    | some el => by_cases h2 : el.length = 0 <;> simp [h1, hpd, h2]


/-- Contribution of an absent-or-empty element to the RT concatenation is
empty. -/
theorem rtPart_eq_nil {bytes : List Nat} {oe : Option DicomElement}
    (h : elemAbsent oe = true) : rtPart bytes oe = [] := by
  cases oe with
  | none => rfl
  | some el =>
      simp only [elemAbsent, beq_iff_eq] at h
      simp [rtPart, h]

/-- Contribution of a present, non-empty, in-range element to the RT
concatenation is non-empty. -/
theorem rtPart_ne_nil {bytes : List Nat} {oe : Option DicomElement}
    (hwf : elemInRange bytes oe = true) (h : elemAbsent oe = false) :
    rtPart bytes oe ≠ [] := by
  cases oe with
  | none => simp [elemAbsent] at h
  | some el =>
      simp only [elemAbsent, beq_eq_false_iff_ne, ne_eq] at h
      simp only [elemInRange, decide_eq_true_eq] at hwf
      have hpos : 0 < el.length := Nat.pos_of_ne_zero h
      simp only [rtPart, if_pos hpos]
      have hlen : (sliceBytes bytes el).length = el.length := by
        simp [sliceBytes, List.length_take, List.length_drop]
        omega
      intro hnil
      rw [hnil] at hlen
      simp at hlen
      omega

/-- Paths inside the updated duplicate map either were in a group already or
are the path just recorded. -/
theorem mem_addHash {m : List (String × List String)} {h p q : String}
    {g : String × List String} (hg : g ∈ addHash m h p) (hq : q ∈ g.2) :
    (∃ g' ∈ m, q ∈ g'.2) ∨ q = p := by
  unfold addHash at hg
  split at hg
  · rcases List.mem_map.mp hg with ⟨kv, hkv, hmap⟩
    by_cases he : kv.1 = h
    · rw [if_pos he] at hmap
      subst hmap
      simp only [List.mem_append, List.mem_singleton] at hq
      rcases hq with hq | hq
      · exact Or.inl ⟨kv, hkv, hq⟩
      · exact Or.inr hq
    · rw [if_neg he] at hmap
      subst hmap
      exact Or.inl ⟨kv, hkv, hq⟩
  · rcases List.mem_append.mp hg with hin | hsing
    · exact Or.inl ⟨g, hin, hq⟩
    · simp only [List.mem_singleton] at hsing
      subst hsing
      simp only [List.mem_singleton] at hq
      exact Or.inr hq

/-- First component of `processDicomFile` is the counter-independent
`entryHash`. -/
theorem processDicomFile_fst (e : SpoolEntry) (c : Counter) :
    (processDicomFile e c).1 = entryHash e := by
  cases h : e.parsed <;> simp [processDicomFile, entryHash, h]

/-- Every path occurring in a hash group after the fold satisfies any
predicate that holds for the initial groups' paths and for the path of every
entry processed to a non-null hash. -/
theorem groups_paths_from (P : String → Prop) :
    ∀ (l : List SpoolEntry) (st : RunState),
      (∀ g ∈ st.hashes, ∀ q ∈ g.2, P q) →
      (∀ e ∈ l, (entryHash e).isSome = true → P e.path) →
      ∀ g ∈ (l.foldl stepRun st).hashes, ∀ q ∈ g.2, P q := by
  intro l
  induction l with
  | nil => intro st h1 _; simpa using h1
  | cons e rest ih =>
      intro st h1 h2
      simp only [List.foldl_cons]
      apply ih
      · intro g hg q hq
        unfold stepRun at hg
        split at hg
        · exact h1 g hg q hq
        · rcases hpr : processDicomFile e st.counter with ⟨oh, c⟩
          rw [hpr] at hg
          cases oh with
          | none => exact h1 g hg q hq
          | some hv =>
              simp only at hg
              rcases mem_addHash hg hq with ⟨g', hg', hq'⟩ | rfl
              · exact h1 g' hg' q hq'
              · apply h2 e (List.mem_cons_self e rest)
                have : entryHash e = some hv := by
                  rw [← processDicomFile_fst e st.counter, hpr]
                rw [this]
                rfl
      · intro e' he' hs
        exact h2 e' (List.mem_cons_of_mem _ he') hs

/-- C1: the content hasher is a pure function of the selected payload bytes —
two recognized files whose selected-payload byte regions are byte-for-byte
equal get equal digests, the digest does not depend on the file path, and
`hashBuffer` itself depends only on the input bytes. -/
theorem C1_content_hash_pure :
    (∀ f1 f2 : DicomFile, selectedPayload f1.dataSet = selectedPayload f2.dataSet →
      fileDigest f1 = fileDigest f2) ∧
    (∀ (p1 p2 : String) (ds : DataSet), fileDigest ⟨p1, ds⟩ = fileDigest ⟨p2, ds⟩) ∧
    (∀ b1 b2 : List Nat, b1 = b2 → hashBuffer b1 = hashBuffer b2) := by
  refine ⟨fun f1 f2 h => ?_, fun p1 p2 ds => rfl, fun b1 b2 h => by rw [h]⟩
  unfold fileDigest
  rw [extractRelevantData_eq_map_hash, extractRelevantData_eq_map_hash, h]

/-- Witness for C1: two image files with the same pixel bytes but different
paths, buffers, SOP class strings and modalities get the same digest. -/
theorem C1_content_hash_pure_witness :
    selectedPayload dsImgA = selectedPayload dsImgB ∧
    fileDigest ⟨"/x/a.dcm", dsImgA⟩ = fileDigest ⟨"/y/b.dcm", dsImgB⟩ :=
  ⟨by decide, C1_content_hash_pure.1 ⟨"/x/a.dcm", dsImgA⟩ ⟨"/y/b.dcm", dsImgB⟩ (by decide)⟩

/-- C4 counterexample: the SOP class `1.2.840.10008.5.1.4.1.1.104.19`
matches none of the claim's four special rules (exact PDF, SR prefix, exact
RT, waveform prefix) and the pixel-data element of `dsGap` is present and
non-empty, yet the classifier does not fall back to hashing the pixel data:
it yields `null`, because `isSpecialSOPClass` prefix-matches the exact-form
identifiers too, and the special handler then matches nothing. -/
theorem C4_counterexample_gap_uid :
    claimSpecialRule "1.2.840.10008.5.1.4.1.1.104.19" = false ∧
    dsGap.sopClassUID = some "1.2.840.10008.5.1.4.1.1.104.19" ∧
    dsGap.pixelData = some ⟨0, 3⟩ ∧
    extractRelevantData dsGap = none ∧
    extractRelevantData dsGap ≠ some (hashBuffer (sliceBytes dsGap.byteArray ⟨0, 3⟩)) := by
  have hnone : extractRelevantData dsGap = none := by decide
  exact ⟨by decide, rfl, rfl, hnone, by rw [hnone]; exact fun h => Option.noConfusion h⟩

/-- C4 amended: classification falls back to pixel-data hashing exactly when
the SOP class string starts with none of the four special identifiers (all
four are prefix-tested); a SOP class that properly extends the exact-form
PDF or RT identifiers is instead routed to the special handler and yields
`null`. -/
theorem C4_amended_imagelike_fallback :
    (∀ ds : DataSet, isSpecialSOPClass (ds.sopClassUID.getD "") = false →
      extractRelevantData ds =
        match ds.pixelData with
        | none => none
        | some el =>
            if el.length = 0 then none else some (hashBuffer (sliceBytes ds.byteArray el))) ∧
    (∀ ds : DataSet, isSpecialSOPClass (ds.sopClassUID.getD "") = true →
      claimSpecialRule (ds.sopClassUID.getD "") = false →
      extractRelevantData ds = none) := by
  constructor
  · intro ds h
    unfold extractRelevantData
    simp [h]
  · intro ds h1 h2
    unfold claimSpecialRule at h2
    simp only [Bool.or_eq_false_iff, decide_eq_false_iff_not] at h2
    obtain ⟨⟨⟨hpdf, hsr⟩, hrt⟩, hwf⟩ := h2
    unfold extractRelevantData handleSpecialSOPClass
    simp [h1, hpdf, hsr, hrt, hwf]

/-- Witness for C4 amended: the empty SOP class string falls back to pixel
hashing on `dsImgA`, and the gap dataset `dsGap` is routed to the special
handler and yields `null`. -/
theorem C4_amended_imagelike_fallback_witness :
    extractRelevantData dsImgA = some (hashBuffer (sliceBytes dsImgA.byteArray ⟨0, 3⟩)) ∧
    extractRelevantData dsGap = none :=
  ⟨C4_amended_imagelike_fallback.1 dsImgA (by decide),
   C4_amended_imagelike_fallback.2 dsGap (by decide) (by decide)⟩

/-- C5: for an RT Structure Set dataset with in-range elements the digest is
a single hash application over the concatenation of the present non-empty
target elements, in the fixed order ROI sequence, ROI-contour sequence,
ROI-observations sequence; a dataset missing some but not all of the three
still gets a non-null hash, and the result is null when all three are absent
or empty. -/
theorem C5_rt_concat_hash (ds : DataSet)
    (hsop : ds.sopClassUID = some "1.2.840.10008.5.1.4.1.1.481.3")
    (hwf : rtElemsInRange ds = true) :
    (extractRelevantData ds =
      if rtPart ds.byteArray ds.roiSeq ++ rtPart ds.byteArray ds.roiContourSeq ++
          rtPart ds.byteArray ds.roiObsSeq = [] then none
      else
        some (hashBuffer (rtPart ds.byteArray ds.roiSeq ++ rtPart ds.byteArray ds.roiContourSeq ++
          rtPart ds.byteArray ds.roiObsSeq))) ∧
    ((elemAbsent ds.roiSeq = false ∨ elemAbsent ds.roiContourSeq = false ∨
        elemAbsent ds.roiObsSeq = false) →
      (extractRelevantData ds).isSome = true) ∧
    (elemAbsent ds.roiSeq = true ∧ elemAbsent ds.roiContourSeq = true ∧
        elemAbsent ds.roiObsSeq = true →
      extractRelevantData ds = none) := by
  have huid : ds.sopClassUID.getD "" = "1.2.840.10008.5.1.4.1.1.481.3" := by rw [hsop]; rfl
  have e1 : isSpecialSOPClass "1.2.840.10008.5.1.4.1.1.481.3" = true := by decide
  have e2 : ¬("1.2.840.10008.5.1.4.1.1.481.3" = "1.2.840.10008.5.1.4.1.1.104.1") := by decide
  have e3 : strStartsWith "1.2.840.10008.5.1.4.1.1.481.3" "1.2.840.10008.5.1.4.1.1.88." = false := by
    decide
  have hmain : extractRelevantData ds =
      if rtBuffers ds = [] then none else some (hashBuffer (rtBuffers ds)) := by
    unfold extractRelevantData handleSpecialSOPClass
    simp [huid, e1, e2, e3]
  unfold rtBuffers at hmain
  simp only [rtElemsInRange, Bool.and_eq_true] at hwf
  obtain ⟨⟨hw1, hw2⟩, hw3⟩ := hwf
  refine ⟨hmain, fun hpresent => ?_, fun ⟨ha1, ha2, ha3⟩ => ?_⟩
  · have hne : rtPart ds.byteArray ds.roiSeq ++ rtPart ds.byteArray ds.roiContourSeq ++
        rtPart ds.byteArray ds.roiObsSeq ≠ [] := by
      intro hcontra
      rw [List.append_eq_nil, List.append_eq_nil] at hcontra
      rcases hpresent with hp | hp | hp
      · exact rtPart_ne_nil hw1 hp hcontra.1.1
      · exact rtPart_ne_nil hw2 hp hcontra.1.2
      · exact rtPart_ne_nil hw3 hp hcontra.2
    rw [hmain, if_neg hne]
    rfl
  · rw [hmain, if_pos]
    rw [rtPart_eq_nil ha1, rtPart_eq_nil ha2, rtPart_eq_nil ha3]
    rfl

/-- Witness for C5: an RT Structure Set dataset with the ROI-contour
sequence missing but the other two target elements present still gets a
non-null hash. -/
theorem C5_rt_concat_hash_witness :
    (extractRelevantData dsRT).isSome = true :=
  (C5_rt_concat_hash dsRT rfl (by decide)).2.1 (Or.inl (by decide))

/-- C3: for every classified document kind, a dataset whose designated
payload element is missing or zero-length classifies to `null` — no hash of
an empty or substitute value and no whole-file fallback — and every path in
any hash group comes from an entry with a non-null hash, so a null-outcome
file (such as a zero-length-pixel-data image) never joins a duplicate group
with a valid file. -/
theorem C3_missing_payload_yields_null :
    (∀ ds : DataSet, designatedMissing ds = true → extractRelevantData ds = none) ∧
    (∀ (spool : List SpoolEntry) (p : String),
      (∀ e ∈ spool, e.path = p → entryHash e = none) →
      ∀ g ∈ (runPipeline spool).hashes, p ∉ g.2) := by
  constructor
  · intro ds h
    unfold designatedMissing at h
    unfold extractRelevantData handleSpecialSOPClass
    by_cases h1 : isSpecialSOPClass (ds.sopClassUID.getD "") = true
    · by_cases h2 : ds.sopClassUID.getD "" = "1.2.840.10008.5.1.4.1.1.104.1"
      · have e1 : isSpecialSOPClass "1.2.840.10008.5.1.4.1.1.104.1" = true := by decide
        cases hed : ds.encapsulatedDoc with
        | none => simp [h1, h2, e1, hed]
        | some el =>
            simp [h1, h2, e1, hed, elemAbsent] at h
            simp [h1, h2, e1, hed, h]
      · by_cases h3 : strStartsWith (ds.sopClassUID.getD "") "1.2.840.10008.5.1.4.1.1.88." = true
        · cases hcs : ds.contentSeq with
          | none => simp [h1, h2, h3, hcs]
          | some el =>
              simp [h1, h2, h3, hcs, elemAbsent] at h
              simp [h1, h2, h3, hcs, h]
        · by_cases h4 : ds.sopClassUID.getD "" = "1.2.840.10008.5.1.4.1.1.481.3"
          · have e2 : isSpecialSOPClass "1.2.840.10008.5.1.4.1.1.481.3" = true := by decide
            have e3 : ¬("1.2.840.10008.5.1.4.1.1.481.3" = "1.2.840.10008.5.1.4.1.1.104.1") := by
              decide
            have e4 : strStartsWith "1.2.840.10008.5.1.4.1.1.481.3"
                "1.2.840.10008.5.1.4.1.1.88." = false := by decide
            simp [h1, h2, h3, h4, e2, e3, e4, Bool.and_eq_true] at h
            have hall : rtBuffers ds = [] := by
              unfold rtBuffers
              rw [rtPart_eq_nil h.1.1, rtPart_eq_nil h.1.2, rtPart_eq_nil h.2]
              rfl
            simp [h4, e2, e3, e4, hall]
          · by_cases h5 : strStartsWith (ds.sopClassUID.getD "")
                "1.2.840.10008.5.1.4.1.1.9.1." = true
            · cases hwd : ds.waveformData with
              | none => simp [h1, h2, h3, h4, h5, hwd]
              | some el =>
                  simp [h1, h2, h3, h4, h5, hwd, elemAbsent] at h
                  simp [h1, h2, h3, h4, h5, hwd, h]
            · simp [h1, h2, h3, h4, h5]
    · cases hpd : ds.pixelData with
      | none => simp [h1, hpd]
      | some el =>
          simp [h1, hpd, elemAbsent] at h
          simp [h1, hpd, h]
  · intro spool p hnull g hg hp
    unfold runPipeline at hg
    refine absurd rfl (groups_paths_from (fun q => ¬q = p) spool _ (by simp) ?_ g hg p hp)
    intro e he hs heq
    have hnone := hnull e he heq
    rw [hnone] at hs
    simp at hs

/-- Witness for C3: a zero-length-pixel-data image dataset has a missing
designated payload, classifies to `null`, and its path appears in no hash
group of a run over it. -/
theorem C3_missing_payload_yields_null_witness :
    designatedMissing dsZeroPixel = true ∧
    extractRelevantData dsZeroPixel = none ∧
    ∀ g ∈ (runPipeline [⟨"/t/zero.dcm", some dsZeroPixel⟩]).hashes, "/t/zero.dcm" ∉ g.2 :=
  ⟨by decide, C3_missing_payload_yields_null.1 dsZeroPixel (by decide),
   C3_missing_payload_yields_null.2 [⟨"/t/zero.dcm", some dsZeroPixel⟩] "/t/zero.dcm"
     (by decide)⟩

/-- Prefix lists are at most as long as the list they prefix. -/
theorem isPrefixList_length {a b : List Char} (h : isPrefixList a b = true) :
    a.length ≤ b.length := by
  induction a generalizing b with
  | nil => simp
  | cons x xs ih =>
      cases b with
      | nil => simp [isPrefixList] at h
      | cons y ys =>
          simp only [isPrefixList, Bool.and_eq_true] at h
          simpa using ih h.2

/-- Separator-bounded parents are strictly shorter. -/
theorem strLen_lt_of_isSubfolderOf {parent folder : String}
    (h : isSubfolderOf parent folder = true) : strLen parent < strLen folder := by
  unfold isSubfolderOf strStartsWith at h
  have hlen := isPrefixList_length h
  rw [String.data_append] at hlen
  simp only [List.length_append] at hlen
  unfold strLen
  have : pathSep.data.length = 1 := rfl
  omega

/-- Membership in an insertion is membership in the head-extended list. -/
theorem mem_insertByLen {f g : String} {l : List String} :
    g ∈ insertByLen f l ↔ g = f ∨ g ∈ l := by
  induction l with
  | nil => simp [insertByLen]
  | cons x xs ih =>
      unfold insertByLen
      split
      · simp only [List.mem_cons, ih]
        tauto
      · simp only [List.mem_cons]

/-- Occurrence counts are preserved by the insertion step. -/
theorem count_insertByLen (p f : String) (l : List String) :
    (insertByLen f l).count p = (f :: l).count p := by
  induction l with
  | nil => rfl
  | cons x xs ih =>
      unfold insertByLen
      split
      · simp only [List.count_cons, ih]
        omega
      · rfl

/-- Occurrence counts are preserved by the stable sort. -/
theorem count_sortByLen (p : String) (l : List String) :
    (sortByLen l).count p = l.count p := by
  induction l with
  | nil => rfl
  | cons x xs ih =>
      show (insertByLen x (sortByLen xs)).count p = _
      rw [count_insertByLen]
      simp only [List.count_cons, ih]

/-- Membership is preserved by the stable sort. -/
theorem mem_sortByLen {f : String} {l : List String} : f ∈ sortByLen l ↔ f ∈ l := by
  induction l with
  | nil => simp [sortByLen]
  | cons x xs ih =>
      show f ∈ insertByLen x (sortByLen xs) ↔ _
      rw [mem_insertByLen]
      simp [ih, eq_comm]

/-- Insertion preserves ascending length order. -/
theorem sorted_insertByLen {f : String} {l : List String}
    (h : l.Pairwise (fun a b => strLen a ≤ strLen b)) :
    (insertByLen f l).Pairwise (fun a b => strLen a ≤ strLen b) := by
  induction l with
  | nil => simp [insertByLen]
  | cons x xs ih =>
      rcases List.pairwise_cons.mp h with ⟨hx, hxs⟩
      unfold insertByLen
      split
      next hlt =>
        refine List.pairwise_cons.mpr ⟨?_, ih hxs⟩
        intro b hb
        rcases mem_insertByLen.mp hb with rfl | hb'
        · omega
        · exact hx b hb'
      next hge =>
        refine List.pairwise_cons.mpr ⟨?_, h⟩
        intro b hb
        rcases List.mem_cons.mp hb with rfl | hb'
        · omega
        · have := hx b hb'
          omega

/-- The stable sort produces an ascending-length list. -/
theorem sorted_sortByLen (l : List String) :
    (sortByLen l).Pairwise (fun a b => strLen a ≤ strLen b) := by
  induction l with
  | nil => simp [sortByLen]
  | cons x xs ih => exact sorted_insertByLen ih

/-- The loop of `removeNestedFolders` only ever appends to its accumulator. -/
theorem keepOuterLoop_sub : ∀ (l acc : List String), ∀ x ∈ acc, x ∈ keepOuterLoop acc l := by
  intro l
  induction l with
  | nil => intro acc x hx; simpa [keepOuterLoop] using hx
  | cons folder rest ih =>
      intro acc x hx
      simp only [keepOuterLoop]
      split
      · exact ih acc x hx
      · exact ih (acc ++ [folder]) x (List.mem_append.mpr (Or.inl hx))

/-- Every processed folder is kept or has a kept separator-bounded parent. -/
theorem keepOuterLoop_covers : ∀ (l acc : List String), ∀ f ∈ l,
    f ∈ keepOuterLoop acc l ∨ ∃ p ∈ keepOuterLoop acc l, isSubfolderOf p f = true := by
  intro l
  induction l with
  | nil => intro acc f hf; cases hf
  | cons folder rest ih =>
      intro acc f hf
      simp only [keepOuterLoop]
      rcases List.mem_cons.mp hf with rfl | hf'
      · split
        next h =>
          rcases List.any_eq_true.mp h with ⟨parent, hp, hsub⟩
          exact Or.inr ⟨parent, keepOuterLoop_sub rest acc parent hp,
            by simpa using hsub⟩
        next h =>
          exact Or.inl (keepOuterLoop_sub rest (acc ++ [f]) f (by simp))
      · split
        · exact ih acc f hf'
        · exact ih (acc ++ [folder]) f hf'

/-- No kept folder is a separator-bounded parent of another kept folder,
given the ascending-length processing order. -/
theorem keepOuterLoop_noNest : ∀ (l acc : List String),
    l.Pairwise (fun a b => strLen a ≤ strLen b) →
    (∀ a ∈ acc, ∀ x ∈ l, strLen a ≤ strLen x) →
    (∀ a ∈ acc, ∀ b ∈ acc, isSubfolderOf a b = false) →
    ∀ a ∈ keepOuterLoop acc l, ∀ b ∈ keepOuterLoop acc l, isSubfolderOf a b = false := by
  intro l
  induction l with
  | nil => intro acc _ _ hnn; simpa [keepOuterLoop] using hnn
  | cons folder rest ih =>
      intro acc hsort hlen hnn
      rcases List.pairwise_cons.mp hsort with ⟨hfirst, hrest⟩
      simp only [keepOuterLoop]
      split
      next h =>
        exact ih acc hrest
          (fun a ha x hx => hlen a ha x (List.mem_cons_of_mem _ hx)) hnn
      next h =>
        have hnotsub : ∀ a ∈ acc, isSubfolderOf a folder = false := by
          intro a ha
          cases hcase : isSubfolderOf a folder
          · rfl
          · exact absurd (List.any_eq_true.mpr ⟨a, ha, by simpa using hcase⟩) h
        refine ih (acc ++ [folder]) hrest ?_ ?_
        · intro a ha x hx
          rcases List.mem_append.mp ha with ha' | ha'
          · exact hlen a ha' x (List.mem_cons_of_mem _ hx)
          · rw [List.mem_singleton.mp ha']
            exact hfirst x hx
        · intro a ha b hb
          rcases List.mem_append.mp ha with ha' | ha' <;>
            rcases List.mem_append.mp hb with hb' | hb'
          · exact hnn a ha' b hb'
          · rw [List.mem_singleton.mp hb']
            exact hnotsub a ha'
          · rw [List.mem_singleton.mp ha']
            cases hcase : isSubfolderOf folder b
            · rfl
            · have hlt := strLen_lt_of_isSubfolderOf hcase
              have hle := hlen b hb' folder (List.mem_cons_self _ _)
              omega
          · rw [List.mem_singleton.mp ha', List.mem_singleton.mp hb']
            cases hcase : isSubfolderOf folder folder
            · rfl
            · have hlt := strLen_lt_of_isSubfolderOf hcase
              omega

/-- A folder with a separator-bounded parent already kept is never added. -/
theorem keepOuterLoop_drop : ∀ (l acc : List String) (p : String),
    l.Pairwise (fun a b => strLen a ≤ strLen b) →
    (∀ a ∈ acc, ∀ x ∈ l, strLen a ≤ strLen x) →
    (∀ a ∈ acc, ∀ b ∈ acc, isSubfolderOf a b = false) →
    (∃ a ∈ acc, isSubfolderOf a p = true) →
    p ∉ keepOuterLoop acc l := by
  intro l
  induction l with
  | nil =>
      intro acc p _ _ hnn ⟨a, ha, hsub⟩ hmem
      simp only [keepOuterLoop] at hmem
      have := hnn a ha p hmem
      rw [this] at hsub
      cases hsub
  | cons folder rest ih =>
      intro acc p hsort hlen hnn hex
      rcases List.pairwise_cons.mp hsort with ⟨hfirst, hrest⟩
      simp only [keepOuterLoop]
      split
      next h =>
        exact ih acc p hrest
          (fun a ha x hx => hlen a ha x (List.mem_cons_of_mem _ hx)) hnn hex
      next h =>
        have hnotsub : ∀ a ∈ acc, isSubfolderOf a folder = false := by
          intro a ha
          cases hcase : isSubfolderOf a folder
          · rfl
          · exact absurd (List.any_eq_true.mpr ⟨a, ha, by simpa using hcase⟩) h
        refine ih (acc ++ [folder]) p hrest ?_ ?_ ?_
        · intro a ha x hx
          rcases List.mem_append.mp ha with ha' | ha'
          · exact hlen a ha' x (List.mem_cons_of_mem _ hx)
          · rw [List.mem_singleton.mp ha']
            exact hfirst x hx
        · intro a ha b hb
          rcases List.mem_append.mp ha with ha' | ha' <;>
            rcases List.mem_append.mp hb with hb' | hb'
          · exact hnn a ha' b hb'
          · rw [List.mem_singleton.mp hb']
            exact hnotsub a ha'
          · rw [List.mem_singleton.mp ha']
            cases hcase : isSubfolderOf folder b
            · rfl
            · have hlt := strLen_lt_of_isSubfolderOf hcase
              have hle := hlen b hb' folder (List.mem_cons_self _ _)
              omega
          · rw [List.mem_singleton.mp ha', List.mem_singleton.mp hb']
            cases hcase : isSubfolderOf folder folder
            · rfl
            · have hlt := strLen_lt_of_isSubfolderOf hcase
              omega
        · rcases hex with ⟨a, ha, hsub⟩
          exact ⟨a, List.mem_append.mpr (Or.inl ha), hsub⟩

/-- Transfer of the loop invariants across a kept folder. -/
theorem keepOuterLoop_inv_step {acc rest : List String} {folder : String}
    (hfirst : ∀ x ∈ rest, strLen folder ≤ strLen x)
    (hlen : ∀ a ∈ acc, ∀ x ∈ folder :: rest, strLen a ≤ strLen x)
    (hnn : ∀ a ∈ acc, ∀ b ∈ acc, isSubfolderOf a b = false)
    (hnotsub : ∀ a ∈ acc, isSubfolderOf a folder = false) :
    (∀ a ∈ acc ++ [folder], ∀ x ∈ rest, strLen a ≤ strLen x) ∧
    (∀ a ∈ acc ++ [folder], ∀ b ∈ acc ++ [folder], isSubfolderOf a b = false) := by
  constructor
  · intro a ha x hx
    rcases List.mem_append.mp ha with ha' | ha'
    · exact hlen a ha' x (List.mem_cons_of_mem _ hx)
    · rw [List.mem_singleton.mp ha']
      exact hfirst x hx
  · intro a ha b hb
    rcases List.mem_append.mp ha with ha' | ha' <;>
      rcases List.mem_append.mp hb with hb' | hb'
    · exact hnn a ha' b hb'
    · rw [List.mem_singleton.mp hb']
      exact hnotsub a ha'
    · rw [List.mem_singleton.mp ha']
      cases hcase : isSubfolderOf folder b
      · rfl
      · have hlt := strLen_lt_of_isSubfolderOf hcase
        have hle := hlen b hb' folder (List.mem_cons_self _ _)
        omega
    · rw [List.mem_singleton.mp ha', List.mem_singleton.mp hb']
      cases hcase : isSubfolderOf folder folder
      · rfl
      · have hlt := strLen_lt_of_isSubfolderOf hcase
        omega

/-- Counting version of the loop: a folder that survives keeps every one of
its occurrences (equal strings always take the same branch). -/
theorem keepOuterLoop_count : ∀ (l acc : List String) (p : String),
    l.Pairwise (fun a b => strLen a ≤ strLen b) →
    (∀ a ∈ acc, ∀ x ∈ l, strLen a ≤ strLen x) →
    (∀ a ∈ acc, ∀ b ∈ acc, isSubfolderOf a b = false) →
    p ∈ keepOuterLoop acc l →
    (keepOuterLoop acc l).count p = acc.count p + l.count p := by
  intro l
  induction l with
  | nil =>
      intro acc p _ _ _ _
      simp [keepOuterLoop]
  | cons folder rest ih =>
      intro acc p hsort hlen hnn hmem
      rcases List.pairwise_cons.mp hsort with ⟨hfirst, hrest⟩
      simp only [keepOuterLoop] at hmem ⊢
      by_cases hany : (acc.any fun parent => isSubfolderOf parent folder) = true
      · rw [if_pos hany] at hmem ⊢
        have hne : ¬(folder = p) := by
          rintro rfl
          rcases List.any_eq_true.mp hany with ⟨a, ha, hsub⟩
          exact keepOuterLoop_drop rest acc folder hrest
            (fun a' ha' x hx => hlen a' ha' x (List.mem_cons_of_mem _ hx)) hnn
            ⟨a, ha, by simpa using hsub⟩ hmem
        have hrw := ih acc p hrest
          (fun a' ha' x hx => hlen a' ha' x (List.mem_cons_of_mem _ hx)) hnn hmem
        rw [hrw]
        have hbeq : ¬((folder == p) = true) := fun hb => hne (beq_iff_eq.mp hb)
        rw [List.count_cons, if_neg hbeq]
        omega
      · rw [if_neg hany] at hmem ⊢
        have hnotsub : ∀ a ∈ acc, isSubfolderOf a folder = false := by
          intro a ha
          cases hcase : isSubfolderOf a folder
          · rfl
          · exact absurd (List.any_eq_true.mpr ⟨a, ha, by simpa using hcase⟩) hany
        obtain ⟨hlen', hnn'⟩ := keepOuterLoop_inv_step hfirst hlen hnn hnotsub
        have hrw := ih (acc ++ [folder]) p hrest hlen' hnn' hmem
        rw [hrw]
        simp only [List.count_append, List.count_cons, List.count_nil]
        omega

/-- C6: `removeNestedFolders` sorts the roots by path length ascending and
drops a root exactly when the kept set contains a separator-bounded strict
path-prefix of it: a processed root is missing from the result precisely
when the result holds such a parent; on `/a`, `/a/b`, `/a/bc` the result is
`{/a}`, and `/a/bc` is never dropped on account of `/a/b`. -/
theorem C6_root_overlap_elimination :
    removeNestedFolders ["/a", "/a/b", "/a/bc"] = ["/a"] ∧
    (∀ (folders : List String) (f : String), f ∈ folders →
      (f ∉ removeNestedFolders folders ↔
        ∃ p ∈ removeNestedFolders folders, isSubfolderOf p f = true)) ∧
    removeNestedFolders ["/a/b", "/a/bc"] = ["/a/b", "/a/bc"] := by
  refine ⟨by decide, ?_, by decide⟩
  intro folders f hf
  unfold removeNestedFolders
  constructor
  · intro hnot
    rcases keepOuterLoop_covers (sortByLen folders) [] f (mem_sortByLen.mpr hf) with hin | hex
    · exact absurd hin hnot
    · exact hex
  · rintro ⟨p, hp, hsub⟩ hin
    have hfalse := keepOuterLoop_noNest (sortByLen folders) [] (sorted_sortByLen folders)
      (by intro a ha; cases ha) (by intro a ha; cases ha) p hp f hin
    rw [hfalse] at hsub
    cases hsub

/-- Witness for C6: the drop characterization instantiated at the roots
`[/a, /a/b]` and the root `/a/b`. -/
theorem C6_root_overlap_elimination_witness :
    "/a/b" ∉ removeNestedFolders ["/a", "/a/b"] ↔
      ∃ p ∈ removeNestedFolders ["/a", "/a/b"], isSubfolderOf p "/a/b" = true :=
  C6_root_overlap_elimination.2.1 ["/a", "/a/b"] "/a/b" (by decide)

/-- C10: `removeNestedFolders` does not deduplicate equal paths — a path
supplied twice is kept twice (only strict separator-bounded descendants are
removed) — so the per-root discovery loop enumerates a duplicated root's
subtree twice. -/
theorem C10_equal_roots_kept :
    removeNestedFolders ["/a", "/a"] = ["/a", "/a"] ∧
    (∀ (folders : List String) (p : String), p ∈ removeNestedFolders folders →
      (removeNestedFolders folders).count p = folders.count p) ∧
    (∀ (deepMode : Bool) (lookup : String → List FSEntry) (r : String)
      (ps ws : List String),
      writeFilePathsToTemp deepMode r (lookup r) = .ok (ps, ws) →
      enumerateRoots deepMode lookup [r, r] = .ok (ps ++ ps)) := by
  refine ⟨by decide, ?_, ?_⟩
  · intro folders p hp
    unfold removeNestedFolders at hp ⊢
    rw [keepOuterLoop_count (sortByLen folders) [] p (sorted_sortByLen folders)
      (by intro a ha; cases ha) (by intro a ha; cases ha) hp]
    simp [count_sortByLen]
  · intro deepMode lookup r ps ws h
    simp [enumerateRoots, h, Bind.bind, Except.bind]

/-- Witness for C10: the count invariance applied to the duplicated root
list `[/a, /a]`, and the double enumeration of a duplicated root over a
one-file directory. -/
theorem C10_equal_roots_kept_witness :
    (removeNestedFolders ["/a", "/a"]).count "/a" = (["/a", "/a"] : List String).count "/a" ∧
    enumerateRoots true (fun _ => [FSEntry.file "x.dcm"]) ["/r", "/r"] =
      .ok (["/r/x.dcm"] ++ ["/r/x.dcm"]) :=
  ⟨C10_equal_roots_kept.2.1 ["/a", "/a"] "/a" (by decide),
   C10_equal_roots_kept.2.2 true (fun _ => [FSEntry.file "x.dcm"]) "/r" ["/r/x.dcm"] []
     (by simp [writeFilePathsToTemp, joinPath, pathSep, Bind.bind, Except.bind])⟩


/-- Names passing the filtered-mode test do not start with a dot. -/
theorem keepFiltered_not_dot {nm : String} (h : keepFiltered nm = true) :
    strStartsWith nm "." = false := by
  unfold keepFiltered at h
  simp only [Bool.and_eq_true, Bool.not_eq_true'] at h
  exact h.2

/-- The LMDB-indexing walker computes the same yield and error lists as on
the dot-pruned tree: it neither descends into dot-named directories nor
yields dot-named files, in any mode. -/
theorem walk_pruneDots : ∀ (dirPath : String) (entries : List FSEntry),
    walk dirPath entries = walk dirPath (pruneDots entries)
  | _, [] => by rw [pruneDots]
  | dirPath, e :: rest => by
      have ihrest := walk_pruneDots dirPath rest
      by_cases h : strStartsWith e.name "." = true
      · cases e <;> simp_all [walk, pruneDots, FSEntry.name]
      · cases e with
        | file nm => simp_all [walk, pruneDots, FSEntry.name]
        | dir nm sub =>
            have ihsub := walk_pruneDots (joinPath dirPath nm) sub
            simp_all [walk, pruneDots, FSEntry.name]
        | dirDenied nm => simp_all [walk, pruneDots, FSEntry.name]
        | dirErrored nm => simp_all [walk, pruneDots, FSEntry.name]
        | special nm => simp_all [walk, pruneDots, FSEntry.name]
termination_by _ entries => sizeOf entries

/-- Every path spooled by `writeFilePathsToTemp` is a join of a directory
path and an entry name which, in filtered mode, passes the
extension-and-dot test. -/
theorem spooled_names_pass_filter : ∀ (deepMode : Bool) (dirPath : String)
    (entries : List FSEntry) (ps ws : List String),
    writeFilePathsToTemp deepMode dirPath entries = .ok (ps, ws) →
    ∀ p ∈ ps, ∃ d nm, p = joinPath d nm ∧ (deepMode = false → keepFiltered nm = true)
  | deep, dirPath, [], ps, ws, h, p, hp => by
      simp only [writeFilePathsToTemp, Except.ok.injEq, Prod.mk.injEq] at h
      rw [← h.1] at hp
      cases hp
  | deep, dirPath, .dir nm sub :: rest, ps, ws, h, p, hp => by
      simp only [writeFilePathsToTemp] at h
      cases hsub : writeFilePathsToTemp deep (joinPath dirPath nm) sub with
      | error e => rw [hsub] at h; simp [Bind.bind, Except.bind] at h
      | ok pr =>
          cases hrest : writeFilePathsToTemp deep dirPath rest with
          | error e => rw [hsub, hrest] at h; simp [Bind.bind, Except.bind] at h
          | ok pr2 =>
              rw [hsub, hrest] at h
              simp only [Bind.bind, Except.bind, Except.ok.injEq, Prod.mk.injEq] at h
              rw [← h.1] at hp
              rcases List.mem_append.mp hp with hp' | hp'
              · exact spooled_names_pass_filter deep (joinPath dirPath nm) sub pr.1 pr.2
                  (by rw [hsub]) p hp'
              · exact spooled_names_pass_filter deep dirPath rest pr2.1 pr2.2
                  (by rw [hrest]) p hp'
  | deep, dirPath, .dirDenied nm :: rest, ps, ws, h, p, hp => by
      simp only [writeFilePathsToTemp] at h
      cases hrest : writeFilePathsToTemp deep dirPath rest with
      | error e => rw [hrest] at h; simp [Bind.bind, Except.bind] at h
      | ok pr2 =>
          rw [hrest] at h
          simp only [Bind.bind, Except.bind, Except.ok.injEq, Prod.mk.injEq] at h
          rw [← h.1] at hp
          exact spooled_names_pass_filter deep dirPath rest pr2.1 pr2.2 (by rw [hrest]) p hp
  | deep, dirPath, .dirErrored nm :: rest, ps, ws, h, p, hp => by
      simp only [writeFilePathsToTemp] at h
      cases h
  | deep, dirPath, .file nm :: rest, ps, ws, h, p, hp => by
      simp only [writeFilePathsToTemp] at h
      cases hrest : writeFilePathsToTemp deep dirPath rest with
      | error e => rw [hrest] at h; simp [Bind.bind, Except.bind] at h
      | ok pr2 =>
          rw [hrest] at h
          simp only [Bind.bind, Except.bind] at h
          by_cases hkeep : (deep || keepFiltered nm) = true
          · rw [if_pos hkeep] at h
            simp only [Except.ok.injEq, Prod.mk.injEq] at h
            rw [← h.1] at hp
            rcases List.mem_cons.mp hp with rfl | hp'
            · refine ⟨dirPath, nm, rfl, fun hdeep => ?_⟩
              rw [hdeep] at hkeep
              simpa using hkeep
            · exact spooled_names_pass_filter deep dirPath rest pr2.1 pr2.2
                (by rw [hrest]) p hp'
          · rw [if_neg hkeep] at h
            simp only [Except.ok.injEq, Prod.mk.injEq] at h
            rw [← h.1] at hp
            exact spooled_names_pass_filter deep dirPath rest pr2.1 pr2.2 (by rw [hrest]) p hp
  | deep, dirPath, .special nm :: rest, ps, ws, h, p, hp => by
      simp only [writeFilePathsToTemp] at h
      exact spooled_names_pass_filter deep dirPath rest ps ws h p hp
termination_by _ _ entries => sizeOf entries

/-- C7 counterexample: in deep mode the spool-based enumerator appends the
dot-named file `.hidden.dcm` to the spool — and `counter.count` (filesSeen)
is incremented exactly once per spooled path — contradicting the claim that
a dot-named file is never spooled or counted in any mode. -/
theorem C7_counterexample_hidden_file_spooled :
    strStartsWith ".hidden.dcm" "." = true ∧
    writeFilePathsToTemp true "/root" [FSEntry.file ".hidden.dcm"] =
      .ok (["/root/.hidden.dcm"], []) := by
  refine ⟨by decide, ?_⟩
  simp [writeFilePathsToTemp, joinPath, pathSep, Bind.bind, Except.bind]

/-- C7 amended: the LMDB-indexing walker (`walk`) never descends into
dot-named directories and never yields dot-named files, in any mode; the
spool-based enumerator (`writeFilePathsToTemp`) excludes dot-named files
only in filtered mode (every spooled name passes the extension-and-dot
test), and it descends into dot-named directories in both modes, so files
inside them can still be spooled. -/
theorem C7_amended_dot_exclusion :
    (∀ (dirPath : String) (entries : List FSEntry),
      walk dirPath entries = walk dirPath (pruneDots entries)) ∧
    (∀ (dirPath : String) (entries : List FSEntry) (ps ws : List String),
      writeFilePathsToTemp false dirPath entries = .ok (ps, ws) →
      ∀ p ∈ ps, ∃ d nm, p = joinPath d nm ∧ keepFiltered nm = true ∧
        strStartsWith nm "." = false) ∧
    writeFilePathsToTemp false "/r" [FSEntry.dir ".git" [FSEntry.file "config"]] =
      .ok (["/r/.git/config"], []) := by
  refine ⟨walk_pruneDots, ?_, ?_⟩
  · intro dirPath entries ps ws h p hp
    obtain ⟨d, nm, hpath, hkeep⟩ := spooled_names_pass_filter false dirPath entries ps ws h p hp
    exact ⟨d, nm, hpath, hkeep rfl, keepFiltered_not_dot (hkeep rfl)⟩
  · simp [writeFilePathsToTemp, joinPath, pathSep, Bind.bind, Except.bind, keepFiltered,
      extname, extnameRev, lowerStr, lowerChar, strStartsWith, isPrefixList]

/-- Witness for C7 amended: a spooled path of a filtered-mode run decomposes
into a directory and a dot-free name passing the filter. -/
theorem C7_amended_dot_exclusion_witness :
    ∃ d nm, "/r/a.dcm" = joinPath d nm ∧ keepFiltered nm = true ∧
      strStartsWith nm "." = false :=
  C7_amended_dot_exclusion.2.1 "/r" [FSEntry.file "a.dcm"] ["/r/a.dcm"] []
    (by simp [writeFilePathsToTemp, joinPath, pathSep, Bind.bind, Except.bind, keepFiltered,
      extname, extnameRev, lowerStr, lowerChar, strStartsWith, isPrefixList])
    "/r/a.dcm" (List.mem_singleton.mpr rfl)

/-- C8: when every directory-read failure in the tree is a permission error,
the enumerator never aborts: it returns the spool of the accessible portion
(siblings of a denied directory included) and records exactly the denied
directories, in traversal order. -/
theorem C8_denied_dirs_skipped : ∀ (deepMode : Bool) (dirPath : String)
    (entries : List FSEntry),
    hasErrored entries = false →
    ∃ ps, writeFilePathsToTemp deepMode dirPath entries =
        .ok (ps, deniedDirs dirPath entries) ∧
      writeFilePathsToTemp deepMode dirPath (pruneDenied entries) = .ok (ps, [])
  | deep, dirPath, [], _ =>
      ⟨[], by simp [writeFilePathsToTemp, deniedDirs],
        by simp [writeFilePathsToTemp, pruneDenied]⟩
  | deep, dirPath, .dir nm sub :: rest, h => by
      have hsplit : hasErrored sub = false ∧ hasErrored rest = false := by
        have := h
        simp only [hasErrored, Bool.or_eq_false_iff] at this
        exact this
      obtain ⟨ps1, e1, e1'⟩ :=
        C8_denied_dirs_skipped deep (joinPath dirPath nm) sub hsplit.1
      obtain ⟨ps2, e2, e2'⟩ := C8_denied_dirs_skipped deep dirPath rest hsplit.2
      refine ⟨ps1 ++ ps2, ?_, ?_⟩
      · simp [writeFilePathsToTemp, e1, e2, Bind.bind, Except.bind, deniedDirs]
      · simp [writeFilePathsToTemp, pruneDenied, e1', e2', Bind.bind, Except.bind]
  | deep, dirPath, .dirDenied nm :: rest, h => by
      have hrest : hasErrored rest = false := by
        simpa [hasErrored] using h
      obtain ⟨ps2, e2, e2'⟩ := C8_denied_dirs_skipped deep dirPath rest hrest
      refine ⟨ps2, ?_, ?_⟩
      · simp [writeFilePathsToTemp, e2, Bind.bind, Except.bind, deniedDirs]
      · simp [writeFilePathsToTemp, pruneDenied, e2', Bind.bind, Except.bind]
  | deep, dirPath, .dirErrored nm :: rest, h => by
      simp [hasErrored] at h
  | deep, dirPath, .file nm :: rest, h => by
      have hrest : hasErrored rest = false := by
        simpa [hasErrored] using h
      obtain ⟨ps2, e2, e2'⟩ := C8_denied_dirs_skipped deep dirPath rest hrest
      by_cases hkeep : (deep || keepFiltered nm) = true
      · refine ⟨joinPath dirPath nm :: ps2, ?_, ?_⟩
        · simp [writeFilePathsToTemp, e2, hkeep, Bind.bind, Except.bind, deniedDirs]
        · simp [writeFilePathsToTemp, pruneDenied, e2', hkeep, Bind.bind, Except.bind]
      · refine ⟨ps2, ?_, ?_⟩
        · simp [writeFilePathsToTemp, e2, hkeep, Bind.bind, Except.bind, deniedDirs]
        · simp [writeFilePathsToTemp, pruneDenied, e2', hkeep, Bind.bind, Except.bind]
  | deep, dirPath, .special nm :: rest, h => by
      have hrest : hasErrored rest = false := by
        simpa [hasErrored] using h
      obtain ⟨ps2, e2, e2'⟩ := C8_denied_dirs_skipped deep dirPath rest hrest
      refine ⟨ps2, ?_, ?_⟩
      · simp [writeFilePathsToTemp, e2, deniedDirs]
      · simp [writeFilePathsToTemp, pruneDenied, e2', deniedDirs]
termination_by _ _ entries => sizeOf entries

/-- Witness for C8: a tree with a permission-denied directory followed by a
sibling file still enumerates (no abort), records the denied path, and
spools the same paths as the tree without the denied directory. -/
theorem C8_denied_dirs_skipped_witness :
    hasErrored [FSEntry.dirDenied "locked", FSEntry.file "after.dcm"] = false ∧
    (∃ ps, writeFilePathsToTemp false "/r"
          [FSEntry.dirDenied "locked", FSEntry.file "after.dcm"] =
        .ok (ps, deniedDirs "/r" [FSEntry.dirDenied "locked", FSEntry.file "after.dcm"]) ∧
      writeFilePathsToTemp false "/r"
          (pruneDenied [FSEntry.dirDenied "locked", FSEntry.file "after.dcm"]) =
        .ok (ps, [])) :=
  ⟨by simp [hasErrored],
   C8_denied_dirs_skipped false "/r" [FSEntry.dirDenied "locked", FSEntry.file "after.dcm"]
     (by simp [hasErrored])⟩

/-- C9 counterexample: with concurrency 2 — the default for 3 CPUs — a state
with three in-flight tasks is reachable: `pool.shift()` drops the oldest
promise while it is still pending, `Promise.race` then resolves immediately
on a member that settled earlier, and another task is admitted. -/
theorem C9_counterexample_inflight_exceeds_bound :
    CONCURRENCY 3 = 2 ∧
    ∃ s : PoolState, PoolReach 2 s ∧ 2 < s.running.length := by
  refine ⟨rfl, ⟨4, [2, 3], [0, 2, 3], [1]⟩, ?_, by decide⟩
  have h0 : PoolReach 2 ⟨0, [], [], []⟩ := .init
  have h1 : PoolReach 2 ⟨1, [0], [0], []⟩ := .step h0 (.spawn _ (by decide))
  have h2 : PoolReach 2 ⟨2, [0, 1], [0, 1], []⟩ := .step h1 (.spawn _ (by decide))
  have h3 : PoolReach 2 ⟨2, [0, 1], [0], [1]⟩ := .step h2 (.settle _ 1 (by decide))
  have h4 : PoolReach 2 ⟨2, [1], [0], [1]⟩ :=
    .step h3 (.raceShift _ (by decide) ⟨1, by decide, by decide⟩)
  have h5 : PoolReach 2 ⟨3, [1, 2], [0, 2], [1]⟩ := .step h4 (.spawn _ (by decide))
  have h6 : PoolReach 2 ⟨3, [2], [0, 2], [1]⟩ :=
    .step h5 (.raceShift _ (by decide) ⟨1, by decide, by decide⟩)
  exact .step h6 (.spawn _ (by decide))

/-- C9 amended: at every reachable instant at most `concurrency` promises
are tracked in the pool array, and the default concurrency is
max(2, numCPUs − 1); the in-flight count itself is not bounded by the pool
length because the shift can discard a still-pending oldest promise. -/
theorem C9_amended_pool_bound :
    (∀ (C : Nat) (s : PoolState), PoolReach C s → s.pool.length ≤ C) ∧
    (∀ numCPUs : Nat, CONCURRENCY numCPUs = max 2 (numCPUs - 1)) := by
  refine ⟨?_, fun _ => rfl⟩
  intro C s h
  induction h with
  | init => simp
  | step hreach hstep ih =>
      cases hstep with
      | spawn hlt =>
          simp only [List.length_append, List.length_singleton]
          omega
      | settle i hi => simpa using ih
      | raceShift hge hex =>
          simp only [List.length_tail]
          omega

/-- Witness for C9 amended: the pool bound applied at the initial state with
the 3-CPU default concurrency. -/
theorem C9_amended_pool_bound_witness :
    (PoolState.mk 0 [] [] []).pool.length ≤ 2 ∧ CONCURRENCY 3 = max 2 (3 - 1) :=
  ⟨C9_amended_pool_bound.1 2 ⟨0, [], [], []⟩ .init, C9_amended_pool_bound.2 3⟩

/-- Pointwise-equal predicates count equally. -/
theorem countP_congr_mem {α : Type} : ∀ (l : List α) (f g : α → Bool),
    (∀ a ∈ l, f a = g a) → l.countP f = l.countP g := by
  intro l f g h
  induction l with
  | nil => rfl
  | cons x xs ih =>
      simp only [List.countP_cons]
      rw [h x (List.mem_cons_self _ _), ih (fun a ha => h a (List.mem_cons_of_mem _ ha))]

/-- Splitting a count along a second predicate. -/
theorem countP_and_split {α : Type} (f g : α → Bool) :
    ∀ l : List α,
      l.countP (fun x => f x && g x) + l.countP (fun x => f x && !g x) = l.countP f := by
  intro l
  induction l with
  | nil => rfl
  | cons x xs ih =>
      simp only [List.countP_cons]
      by_cases hf : f x = true <;> by_cases hg : g x = true <;>
        simp [hf, hg] <;> omega

/-- Splitting a length along a predicate. -/
theorem countP_total_split {α : Type} (g : α → Bool) :
    ∀ l : List α, l.countP g + l.countP (fun x => !g x) = l.length := by
  intro l
  induction l with
  | nil => rfl
  | cons x xs ih =>
      simp only [List.countP_cons, List.length_cons]
      by_cases hg : g x = true <;> simp [hg] <;> omega

/-- The map step of `addHash` leaves entries with other keys untouched. -/
theorem addHash_map_untouched (hsh q : String) :
    ∀ m : List (String × List String), (∀ kv ∈ m, kv.1 ≠ hsh) →
      m.map (fun kv => if kv.1 = hsh then (kv.1, kv.2 ++ [q]) else kv) = m := by
  intro m h
  induction m with
  | nil => rfl
  | cons kv rest ih =>
      simp only [List.map_cons]
      rw [if_neg (h kv (List.mem_cons_self _ _)), ih (fun a ha => h a (List.mem_cons_of_mem _ ha))]

/-- Keys of the duplicate map stay duplicate-free across `addHash`. -/
theorem addHash_keys_nodup {m : List (String × List String)} (hsh q : String)
    (h : (m.map Prod.fst).Nodup) : ((addHash m hsh q).map Prod.fst).Nodup := by
  unfold addHash
  split
  next hany =>
    have hmap : (m.map (fun kv => if kv.1 = hsh then (kv.1, kv.2 ++ [q]) else kv)).map Prod.fst
        = m.map Prod.fst := by
      rw [List.map_map]
      apply List.map_congr_left
      intro kv _
      by_cases hkv : kv.1 = hsh <;> simp [hkv]
    rw [hmap]
    exact h
  next hany =>
    rw [List.map_append]
    have hnotin : hsh ∉ m.map Prod.fst := by
      intro hin
      rcases List.mem_map.mp hin with ⟨kv, hkv, hfst⟩
      exact hany (List.any_eq_true.mpr ⟨kv, hkv, by simpa using hfst⟩)
    simp only [List.map_cons, List.map_nil]
    exact List.Nodup.append h (List.nodup_singleton _)
      (fun a ha hb => hnotin (by rwa [List.mem_singleton.mp hb] at ha))

/-- Group-occurrence count distributes over appended maps. -/
theorem countInGroups_append (p : String) (m1 m2 : List (String × List String)) :
    countInGroups p (m1 ++ m2) = countInGroups p m1 + countInGroups p m2 := by
  unfold countInGroups
  rw [List.map_append, List.sum_append]

/-- Recording one path under a key adds exactly one occurrence of that path
to the groups, provided the map's keys are duplicate-free. -/
theorem countInGroups_addHash (p hsh q : String) :
    ∀ m : List (String × List String), (m.map Prod.fst).Nodup →
      countInGroups p (addHash m hsh q) =
        countInGroups p m + (if q = p then 1 else 0) := by
  intro m
  induction m with
  | nil =>
      intro _
      unfold addHash countInGroups
      by_cases hq : q = p <;>
        simp [hq, List.count_cons]
  | cons kv rest ih =>
      intro hnodup
      rw [List.map_cons] at hnodup
      rcases List.nodup_cons.mp hnodup with ⟨hknot, hrestnodup⟩
      by_cases hk : kv.1 = hsh
      · have hrestuntouched : ∀ kv' ∈ rest, kv'.1 ≠ hsh := by
          intro kv' hkv' heq
          exact hknot (List.mem_map.mpr ⟨kv', hkv', heq.trans hk.symm⟩)
        unfold addHash
        rw [if_pos (List.any_eq_true.mpr ⟨kv, List.mem_cons_self _ _, by simpa using hk⟩)]
        rw [List.map_cons, if_pos hk, addHash_map_untouched hsh q rest hrestuntouched]
        unfold countInGroups
        simp only [List.map_cons, List.sum_cons, List.count_append]
        by_cases hq : q = p <;> simp [hq, List.count_cons] <;> omega
      · by_cases hany : rest.any (fun kv' => kv'.1 = hsh) = true
        · have hstep := ih hrestnodup
          unfold addHash at hstep ⊢
          rw [if_pos hany] at hstep
          rw [if_pos (by simp [List.any_cons, hany])]
          rw [List.map_cons, if_neg hk]
          unfold countInGroups at hstep ⊢
          simp only [List.map_cons, List.sum_cons]
          omega
        · unfold addHash
          rw [if_neg (by simp [List.any_cons, hk, hany])]
          rw [countInGroups_append]
          unfold countInGroups
          by_cases hq : q = p <;> simp [hq, List.count_cons] <;> omega

/-- The processing step leaves `counter.count` unchanged. -/
theorem stepRun_count (st : RunState) (e : SpoolEntry) :
    (stepRun st e).counter.count = st.counter.count := by
  unfold stepRun
  by_cases hb : strTrim e.path = ""
  · simp [hb]
  · cases hp : e.parsed with
    | none => simp [hb, processDicomFile, hp]
    | some ds => cases hex : extractRelevantData ds <;> simp [hb, processDicomFile, hp, hex]

/-- The processing step increments `counter.dicoms` exactly on non-blank
lines whose file parses. -/
theorem stepRun_dicoms (st : RunState) (e : SpoolEntry) :
    (stepRun st e).counter.dicoms = st.counter.dicoms +
      (if ¬(strTrim e.path = "") ∧ e.parsed.isSome = true then 1 else 0) := by
  unfold stepRun
  by_cases hb : strTrim e.path = ""
  · simp [hb]
  · cases hp : e.parsed with
    | none => simp [hb, processDicomFile, hp]
    | some ds => cases hex : extractRelevantData ds <;> simp [hb, processDicomFile, hp, hex]

/-- The processing step keeps the duplicate map's keys duplicate-free. -/
theorem stepRun_keys_nodup (st : RunState) (e : SpoolEntry)
    (h : (st.hashes.map Prod.fst).Nodup) :
    ((stepRun st e).hashes.map Prod.fst).Nodup := by
  unfold stepRun
  by_cases hb : strTrim e.path = ""
  · simpa [hb] using h
  · cases hp : e.parsed with
    | none => simpa [hb, processDicomFile, hp] using h
    | some ds =>
        cases hex : extractRelevantData ds with
        | none => simpa [hb, processDicomFile, hp, hex] using h
        | some hv =>
            simp only [hb, processDicomFile, hp, hex, if_neg]
            exact addHash_keys_nodup hv e.path h

/-- The processing step adds one group occurrence of exactly the processed
path when the line is non-blank and the hash non-null. -/
theorem stepRun_groups (st : RunState) (e : SpoolEntry) (p : String)
    (h : (st.hashes.map Prod.fst).Nodup) :
    countInGroups p (stepRun st e).hashes = countInGroups p st.hashes +
      (if ¬(strTrim e.path = "") ∧ (entryHash e).isSome = true ∧ e.path = p
       then 1 else 0) := by
  unfold stepRun
  by_cases hb : strTrim e.path = ""
  · simp [hb]
  · cases hp : e.parsed with
    | none => simp [hb, processDicomFile, hp, entryHash]
    | some ds =>
        cases hex : extractRelevantData ds with
        | none => simp [hb, processDicomFile, hp, hex, entryHash]
        | some hv =>
            have hsome : (entryHash e).isSome = true := by simp [entryHash, hp, hex]
            have haddkeys := countInGroups_addHash p hv e.path st.hashes h
            by_cases hq : e.path = p
            · subst hq
              simp [hb, processDicomFile, hp, hex, haddkeys, hsome]
            · simp [hb, processDicomFile, hp, hex, hq, hsome, haddkeys]

/-- `counter.count` is untouched by the whole processing fold. -/
theorem foldl_stepRun_count : ∀ (l : List SpoolEntry) (st : RunState),
    (l.foldl stepRun st).counter.count = st.counter.count := by
  intro l
  induction l with
  | nil => intro st; rfl
  | cons e rest ih =>
      intro st
      simp only [List.foldl_cons]
      rw [ih (stepRun st e), stepRun_count]

/-- `counter.dicoms` after the fold counts the non-blank entries that
parse. -/
theorem foldl_stepRun_dicoms : ∀ (l : List SpoolEntry) (st : RunState),
    (l.foldl stepRun st).counter.dicoms = st.counter.dicoms +
      l.countP (fun e => decide (¬(strTrim e.path = "") ∧ e.parsed.isSome = true)) := by
  intro l
  induction l with
  | nil => intro st; simp
  | cons e rest ih =>
      intro st
      simp only [List.foldl_cons, List.countP_cons]
      rw [ih (stepRun st e), stepRun_dicoms]
      by_cases hcond : ¬(strTrim e.path = "") ∧ e.parsed.isSome = true <;>
        simp [hcond] <;> omega

/-- The duplicate map's keys stay duplicate-free across the fold. -/
theorem foldl_stepRun_keys_nodup : ∀ (l : List SpoolEntry) (st : RunState),
    (st.hashes.map Prod.fst).Nodup → (((l.foldl stepRun st).hashes.map Prod.fst)).Nodup := by
  intro l
  induction l with
  | nil => intro st h; exact h
  | cons e rest ih =>
      intro st h
      simp only [List.foldl_cons]
      exact ih (stepRun st e) (stepRun_keys_nodup st e h)

/-- Group occurrences of a path after the fold count the non-blank entries
with that path whose hash is non-null. -/
theorem foldl_stepRun_groups : ∀ (l : List SpoolEntry) (st : RunState) (p : String),
    (st.hashes.map Prod.fst).Nodup →
    countInGroups p (l.foldl stepRun st).hashes = countInGroups p st.hashes +
      l.countP (fun e =>
        decide (¬(strTrim e.path = "") ∧ (entryHash e).isSome = true ∧ e.path = p)) := by
  intro l
  induction l with
  | nil => intro st p _; simp
  | cons e rest ih =>
      intro st p h
      simp only [List.foldl_cons, List.countP_cons]
      rw [ih (stepRun st e) p (stepRun_keys_nodup st e h), stepRun_groups st e p h]
      by_cases hcond : ¬(strTrim e.path = "") ∧ (entryHash e).isSome = true ∧ e.path = p <;>
        simp [hcond] <;> omega

/-- C2 counterexample: a single spooled file that parses but has no
pixel-data element is counted once in `filesSeen` (`counter.count`), once in
`documentsRecognized` (`counter.dicoms`), and once as a null hash, so
`filesSeen ≠ documentsRecognized + nullHashCount`. -/
theorem C2_counterexample_parsed_payloadless :
    (runPipeline [⟨"/t/f1.dcm", some dsNoPixel⟩]).counter.count = 1 ∧
    (runPipeline [⟨"/t/f1.dcm", some dsNoPixel⟩]).counter.dicoms = 1 ∧
    nullHashCount [⟨"/t/f1.dcm", some dsNoPixel⟩] = 1 ∧
    (runPipeline [⟨"/t/f1.dcm", some dsNoPixel⟩]).counter.count ≠
      (runPipeline [⟨"/t/f1.dcm", some dsNoPixel⟩]).counter.dicoms +
        nullHashCount [⟨"/t/f1.dcm", some dsNoPixel⟩] := by
  refine ⟨?_, ?_, ?_, ?_⟩ <;> decide

/-- C2 amended: for every run over a spool of non-blank lines,
`filesSeen = documentsRecognized + (number of files whose read or parse
failed)` — a recognized file without extractable payload is counted both in
`documentsRecognized` and among null hashes, so the null-hash count can
exceed `filesSeen − documentsRecognized` — and every spool occurrence of a
path is accounted exactly once: its group occurrences plus its null-hash
occurrences equal its spool occurrences. -/
theorem C2_amended_accounting :
    (∀ spool : List SpoolEntry, (∀ e ∈ spool, ¬(strTrim e.path = "")) →
      (runPipeline spool).counter.count =
        (runPipeline spool).counter.dicoms + parseFailCount spool) ∧
    (∀ (spool : List SpoolEntry) (p : String), (∀ e ∈ spool, ¬(strTrim e.path = "")) →
      countInGroups p (runPipeline spool).hashes + nullOccurrences p spool =
        pathOccurrences p spool) := by
  constructor
  · intro spool hnb
    unfold runPipeline
    rw [foldl_stepRun_count, foldl_stepRun_dicoms]
    have hcongr : spool.countP
        (fun e => decide (¬(strTrim e.path = "") ∧ e.parsed.isSome = true)) =
        spool.countP (fun e => e.parsed.isSome) := by
      apply countP_congr_mem
      intro e he
      simp [hnb e he]
    have hfail : parseFailCount spool = spool.countP (fun e => !e.parsed.isSome) := by
      unfold parseFailCount
      rw [← List.countP_eq_length_filter]
      apply countP_congr_mem
      intro e _
      cases e.parsed <;> simp
    have hsplit := countP_total_split (fun e : SpoolEntry => e.parsed.isSome) spool
    simp only [hcongr, hfail]
    omega
  · intro spool p hnb
    unfold runPipeline
    rw [foldl_stepRun_groups spool _ p (by simp)]
    have hcongr : spool.countP
        (fun e => decide (¬(strTrim e.path = "") ∧ (entryHash e).isSome = true ∧ e.path = p)) =
        spool.countP (fun e => decide (e.path = p) && (entryHash e).isSome) := by
      apply countP_congr_mem
      intro e he
      by_cases hq : e.path = p
      · have hnb' : ¬strTrim p = "" := by rw [← hq]; exact hnb e he
        by_cases hs : (entryHash e).isSome = true <;> simp [hq, hnb', hs]
      · simp [hq]
    have hnull : nullOccurrences p spool =
        spool.countP (fun e => decide (e.path = p) && !(entryHash e).isSome) := by
      unfold nullOccurrences
      rw [← List.countP_eq_length_filter]
      apply countP_congr_mem
      intro e _
      cases he : entryHash e <;> simp [he]
    have hpath : pathOccurrences p spool = spool.countP (fun e => decide (e.path = p)) := by
      unfold pathOccurrences
      rw [← List.countP_eq_length_filter]
    have hsplit := countP_and_split (fun e : SpoolEntry => decide (e.path = p))
      (fun e : SpoolEntry => (entryHash e).isSome) spool
    rw [hcongr, hnull, hpath]
    simp only [countInGroups, List.map_nil, List.sum_nil, Nat.zero_add]
    omega

/-- Witness for C2 amended: three spooled files — a valid image, a
zero-length-pixel image, and an unparseable file — instantiate both
accounting equations. -/
theorem C2_amended_accounting_witness :
    ((runPipeline [⟨"/t/a.dcm", some dsImgA⟩, ⟨"/t/z.dcm", some dsZeroPixel⟩,
        ⟨"/t/bad.bin", none⟩]).counter.count =
      (runPipeline [⟨"/t/a.dcm", some dsImgA⟩, ⟨"/t/z.dcm", some dsZeroPixel⟩,
        ⟨"/t/bad.bin", none⟩]).counter.dicoms +
        parseFailCount [⟨"/t/a.dcm", some dsImgA⟩, ⟨"/t/z.dcm", some dsZeroPixel⟩,
          ⟨"/t/bad.bin", none⟩]) ∧
    (countInGroups "/t/z.dcm" (runPipeline [⟨"/t/a.dcm", some dsImgA⟩,
        ⟨"/t/z.dcm", some dsZeroPixel⟩, ⟨"/t/bad.bin", none⟩]).hashes +
      nullOccurrences "/t/z.dcm" [⟨"/t/a.dcm", some dsImgA⟩, ⟨"/t/z.dcm", some dsZeroPixel⟩,
        ⟨"/t/bad.bin", none⟩] =
      pathOccurrences "/t/z.dcm" [⟨"/t/a.dcm", some dsImgA⟩, ⟨"/t/z.dcm", some dsZeroPixel⟩,
        ⟨"/t/bad.bin", none⟩]) :=
  ⟨C2_amended_accounting.1 _ (by decide), C2_amended_accounting.2 _ "/t/z.dcm" (by decide)⟩
